import Mathlib

/-!
# A verification development for the AOKV append-only key-value store

This file gives a shallow embedding, in Lean 4, of the core of the AOKV
library (an append-only key-value container format with a streaming writer
`AOKVW` and a random-access reader `AOKVR`), together with theorems that
settle a fixed list of claims about it.

Modelling conventions:

* Bytes are natural numbers; all byte lists produced by the embedding have
  entries below 256 by construction.  A JavaScript `Uint8Array` is a
  `List Nat`.
* JavaScript strings are represented by their UTF-8 byte sequences
  (`List Nat`).  `TextEncoder.encode` / `TextDecoder.decode` are therefore
  the identity, which is faithful because AOKV compares keys byte-for-byte.
* 32-bit stores into `Uint32Array` / `DataView.setUint32` wrap modulo 2^32;
  the embedding takes each emitted byte modulo 256 accordingly.  The
  JavaScript `~~` int32 truncation is `i32` below.
* Asynchrony is irrelevant to the claims (single producer, cooperative
  scheduling); `async` functions become pure functions, and exceptions
  become `Except String`.
* The host `JSON.stringify` / `JSON.parse` are not part of the repository;
  they are modelled executably below (`jsonBytes`, `jsonParse`) on the JSON
  fragment the library emits (integer numerals; objects in insertion
  order).
-/

namespace AOKV

/-! ## Bytes and 32-bit little-endian integers -/

/-- The four little-endian bytes of `n` modulo 2^32, as stored by a
`Uint32Array` element write or `DataView.setUint32`. -/
def u32le (n : Nat) : List Nat :=
  [n % 256, n / 256 % 256, n / 65536 % 256, n / 16777216 % 256]

/-- Read a 32-bit little-endian unsigned integer from the first four bytes
of a list (missing bytes read as 0, matching a short typed-array view). -/
def readU32 (l : List Nat) : Nat :=
  (l.getD 0 0) + 256 * (l.getD 1 0) + 65536 * (l.getD 2 0) +
    16777216 * (l.getD 3 0)

/-- `dU32[i]` for a `Uint32Array` view over a byte list. -/
def readU32At (l : List Nat) (i : Nat) : Nat :=
  readU32 (l.drop (4 * i))

/-- JavaScript `~~x` (ToInt32) for an unsigned value: reduce modulo 2^32,
then interpret the top bit as a sign. -/
def i32 (n : Nat) : Int :=
  let m := n % 4294967296
  if m < 2147483648 then (m : Int) else (m : Int) - 4294967296

/-! ## A model of the JSON fragment used by AOKV

`JSON.stringify` is a host builtin (not repository code).  Modelled from the
spec: the descriptor and the index snapshot are "serialized JSON" in the
host dialect; AOKV itself only ever stringifies `null`, booleans, integer
numbers, strings, arrays and plain objects (in property insertion order),
and strings are emitted as UTF-8 with the standard JSON escapes. -/

/-- JSON values.  Strings are UTF-8 byte sequences; numbers are restricted
to integers (the only numbers AOKV itself writes). -/
inductive JVal where
  | jnull : JVal
  | jbool : Bool → JVal
  | jint : Int → JVal
  | jstr : List Nat → JVal
  | jarr : List JVal → JVal
  | jobj : List (List Nat × JVal) → JVal

/-- Decimal digits (ASCII codes) of a natural number. -/
def natDecimal (n : Nat) : List Nat :=
  (Nat.toDigits 10 n).map Char.toNat

/-- Decimal representation (ASCII codes) of an integer. -/
def intDecimal (i : Int) : List Nat :=
  if i < 0 then 45 :: natDecimal (-i).toNat else natDecimal i.toNat

/-- One lowercase hex digit. -/
def hexDigit (n : Nat) : Nat :=
  if n < 10 then 48 + n else 87 + n

/-- JSON escaping of one string byte, as performed by `JSON.stringify`:
quote and backslash get a backslash escape, control bytes get their short
escape or a `\u00XX` escape, and everything else (including UTF-8
continuation bytes) passes through. -/
def jsonEscapeByte (b : Nat) : List Nat :=
  if b = 34 then [92, 34]
  else if b = 92 then [92, 92]
  else if b = 8 then [92, 98]
  else if b = 9 then [92, 116]
  else if b = 10 then [92, 110]
  else if b = 12 then [92, 102]
  else if b = 13 then [92, 114]
  else if b < 32 then [92, 117, 48, 48, hexDigit (b / 16), hexDigit (b % 16)]
  else [b]

/-- JSON string literal bytes for a (UTF-8) string. -/
def jsonStrBytes (s : List Nat) : List Nat :=
  34 :: (s.flatMap jsonEscapeByte) ++ [34]

mutual

/-- `JSON.stringify`, producing UTF-8 bytes. -/
def jsonBytes : JVal → List Nat
  | .jnull => [110, 117, 108, 108]
  | .jbool true => [116, 114, 117, 101]
  | .jbool false => [102, 97, 108, 115, 101]
  | .jint i => intDecimal i
  | .jstr s => jsonStrBytes s
  | .jarr items => 91 :: jsonArrBytes items ++ [93]
  | .jobj entries => 123 :: jsonObjBytes entries ++ [125]

/-- Comma-separated stringification of array elements. -/
def jsonArrBytes : List JVal → List Nat
  | [] => []
  | [v] => jsonBytes v
  | v :: rest => jsonBytes v ++ 44 :: jsonArrBytes rest

/-- Comma-separated stringification of object entries, in order. -/
def jsonObjBytes : List (List Nat × JVal) → List Nat
  | [] => []
  | [(k, v)] => jsonStrBytes k ++ 58 :: jsonBytes v
  | (k, v) :: rest => jsonStrBytes k ++ 58 :: jsonBytes v ++ 44 :: jsonObjBytes rest

end

/-! ## Format constants (src/format.ts) -/

/-- `aokvMagic = 0x564b4f41` ("AOKV" little-endian). -/
def aokvMagic : Nat := 0x564b4f41

/-- `aokvMagicKVP = 0x93c1af97`. -/
def aokvMagicKVP : Nat := 0x93c1af97

/-- `aokvMagicIndex = 0x93c1af98`. -/
def aokvMagicIndex : Nat := 0x93c1af98

/-- `aokvMagicMax = 0x93c1b097`. -/
def aokvMagicMax : Nat := 0x93c1b097

/-- `MagicHeader.SizeU8`: magic header is 12 bytes. -/
def magicHeaderSizeU8 : Nat := 12

/-- `KVPHeader.SizeU8`: KVP header is 16 bytes. -/
def kvpHeaderSizeU8 : Nat := 16

/-- `maxHeaderSizeU8 = KVPHeader.SizeU8 = 16`. -/
def maxHeaderSizeU8 : Nat := 16

/-! ## Values (`serialize`'s `data` argument)

`serialize` accepts an `ArrayBuffer` view (a typed array or `DataView`), an
`ArrayBuffer`, or anything JSON-serializable.  A typed-array view is
represented by its element kind together with the bytes of its accessible
window (`data.buffer` sliced at `data.byteOffset` for `data.byteLength`
bytes), which is exactly what the serializer reads. -/

/-- The nine recognized `ArrayBuffer`-view kinds. -/
inductive TAKind where
  | uint8 | uint8Clamped | int16 | uint16 | int32 | uint32
  | float32 | float64 | dataView
deriving DecidableEq, Repr

/-- The class-name string (UTF-8 bytes) stored in the descriptor field `a`
for each view kind. -/
def taName : TAKind → List Nat
  | .uint8 => [85, 105, 110, 116, 56, 65, 114, 114, 97, 121]
  | .uint8Clamped =>
      [85, 105, 110, 116, 56, 67, 108, 97, 109, 112, 101, 100,
       65, 114, 114, 97, 121]
  | .int16 => [73, 110, 116, 49, 54, 65, 114, 114, 97, 121]
  | .uint16 => [85, 105, 110, 116, 49, 54, 65, 114, 114, 97, 121]
  | .int32 => [73, 110, 116, 51, 50, 65, 114, 114, 97, 121]
  | .uint32 => [85, 105, 110, 116, 51, 50, 65, 114, 114, 97, 121]
  | .float32 => [70, 108, 111, 97, 116, 51, 50, 65, 114, 114, 97, 121]
  | .float64 => [70, 108, 111, 97, 116, 54, 52, 65, 114, 114, 97, 121]
  | .dataView => [68, 97, 116, 97, 86, 105, 101, 119]

/-- Bytes per element of each view kind (`DataView` reports 1, its
byte window). -/
def taElemSize : TAKind → Nat
  | .uint8 => 1 | .uint8Clamped => 1
  | .int16 => 2 | .uint16 => 2
  | .int32 => 4 | .uint32 => 4
  | .float32 => 4 | .float64 => 8
  | .dataView => 1

/-- A value passed to `setItem`: a typed-array view (kind plus accessible
window bytes), an `ArrayBuffer` (its bytes), or a JSON value. -/
inductive AV where
  | typed : TAKind → List Nat → AV
  | buf : List Nat → AV
  | json : JVal → AV

/-- Descriptor-field names: `t`, `a`, `d`. -/
def tKey : List Nat := [116]

/-- Descriptor-field name `a`. -/
def aKey : List Nat := [97]

/-- Descriptor-field name `d`. -/
def dKey : List Nat := [100]

/-- The descriptor object built by `serialize` for a value, in property
insertion order (`t` first, then `a` or `d` when present). -/
def descOf : AV → JVal
  | .typed k _ => .jobj [(tKey, .jint 1), (aKey, .jstr (taName k))]
  | .buf _ => .jobj [(tKey, .jint 2)]
  | .json d => .jobj [(tKey, .jint 0), (dKey, d)]

/-- The post bytes for a value (raw window / buffer bytes; nothing for
JSON values). -/
def postOf : AV → List Nat
  | .typed _ w => w
  | .buf b => b
  | .json _ => []

/-! ## Value serializer (src/serializer.ts) -/

/-- The uncompressed body: `u32 descSz | descriptor | post`. -/
def plainBody (data : AV) : List Nat :=
  let descU8 := jsonBytes (descOf data)
  u32le descU8.length ++ descU8 ++ postOf data

/-- The compression probe of `serialize`: adopt the compressed body iff it
is strictly shorter and `(c.length < 4 || c[4] !== 0x7b)` (a JS index past
the end reads `undefined`, which differs from `0x7b`). -/
def compressBody (body : List Nat) : Option (List Nat → List Nat) → List Nat
  | none => body
  | some f =>
      let c := f body
      if c.length < body.length ∧ (c.length < 4 ∨ c.get? 4 ≠ some 0x7b)
      then c else body

/-- The full KVP block for a key, body and footer base:
header (16 bytes) ++ key ++ body ++ footer.  The footer is
`lastIndexOffset + KVPHeader.SizeU8 + keyU8.length + body.length`
(stored as a 32-bit little-endian word). -/
def kvpBlockBytes (fileId : Nat) (keyU8 body : List Nat)
    (lastIndexOffset : Nat) : List Nat :=
  u32le aokvMagic ++ u32le (aokvMagicKVP + fileId) ++
  u32le (kvpHeaderSizeU8 + keyU8.length + body.length + 4) ++
  u32le keyU8.length ++
  keyU8 ++ body ++
  u32le (lastIndexOffset + kvpHeaderSizeU8 + keyU8.length + body.length)

/-- The record returned by `serialize`. -/
structure SerOut where
  buf : List Nat
  hdr : Nat
  key : Nat
  body : Nat
  foot : Nat
deriving DecidableEq

/-- `serialize(key, data, lastIndexOffset, fileId, compress?)`. -/
def serialize (keyU8 : List Nat) (data : AV) (lastIndexOffset fileId : Nat)
    (compress : Option (List Nat → List Nat)) : SerOut :=
  let body := compressBody (plainBody data) compress
  { buf := kvpBlockBytes fileId keyU8 body lastIndexOffset
    hdr := kvpHeaderSizeU8
    key := keyU8.length
    body := body.length
    foot := 4 }

/-- The body segment of a serialized KVP block. -/
def SerOut.bodyBytes (r : SerOut) : List Nat :=
  (r.buf.drop (r.hdr + r.key)).take r.body

/-- The key segment of a serialized KVP block. -/
def SerOut.keyBytes (r : SerOut) : List Nat :=
  (r.buf.drop r.hdr).take r.key

/-! ## Index serializer (src/serializer.ts, serializeIndex) -/

/-- `JSON.stringify` of the writer's index: an object mapping each key to
the two-element array `[size, offset]`, in insertion order. -/
def idxJson (index : List (List Nat × Nat × Nat)) : JVal :=
  .jobj (index.map fun e => (e.1, .jarr [.jint e.2.1, .jint e.2.2]))

/-- The (possibly compressed) content of an Index block.  The compression
probe for indices uses byte 0:
`c.length < indexU8.length && c.length && c[0] !== 0x7b`. -/
def idxContent (index : List (List Nat × Nat × Nat))
    (compress : Option (List Nat → List Nat)) : List Nat :=
  let indexU8 := jsonBytes (idxJson index)
  match compress with
  | none => indexU8
  | some f =>
      let c := f indexU8
      if c.length < indexU8.length ∧ c.length ≠ 0 ∧ c.get? 0 ≠ some 0x7b
      then c else indexU8

/-- `serializeIndex(index, fileId, compress?)`: magic header (12 bytes,
block size `12 + |content| + 4`) ++ content ++ footer.  The footer word is
written as `MagicHeader.SizeU8 + indexU8.length`, i.e. `12 + |content|`. -/
def serializeIndex (index : List (List Nat × Nat × Nat)) (fileId : Nat)
    (compress : Option (List Nat → List Nat)) : List Nat :=
  let indexU8 := idxContent index compress
  u32le aokvMagic ++ u32le (aokvMagicIndex + fileId) ++
  u32le (magicHeaderSizeU8 + indexU8.length + 4) ++
  indexU8 ++
  u32le (magicHeaderSizeU8 + indexU8.length)

/-! ## Writer engine (src/aokvw.ts, class AOKVW) -/

/-- JavaScript plain-object assignment `obj[k] = v` on an insertion-ordered
association list: an existing key keeps its position, a new key is appended.
(Integer-like key reordering of JS objects is not modelled; no claim
depends on enumeration order of such keys.) -/
def jsUpdate {V : Type} (m : List (List Nat × V)) (k : List Nat) (v : V) :
    List (List Nat × V) :=
  if m.any (fun e => e.1 = k)
  then m.map (fun e => if e.1 = k then (k, v) else e)
  else m ++ [(k, v)]

/-- One block pushed to the writer's chunk queue. -/
inductive OutBlock where
  | kvpB : SerOut → OutBlock
  | idxB : List Nat → OutBlock
deriving DecidableEq

/-- The bytes of a pushed block. -/
def OutBlock.bytes : OutBlock → List Nat
  | .kvpB r => r.buf
  | .idxB b => b

/-- Writer state (`AOKVW` fields; the chunk queue is modelled by the list
of blocks pushed so far). -/
structure WState where
  fileId : Nat
  size : Nat
  index : List (List Nat × Nat × Nat)
  lastIndex : Nat
  kvpSize : Nat
  indexSize : Nat
  out : List OutBlock

/-- The fresh writer state of the `AOKVW` constructor:
`_size = 0`, `_index = {}`, `_lastIndex = 1`, `_kvpSize = 0`,
`_indexSize = 0`. -/
def initW (fileId : Nat) : WState :=
  { fileId := fileId, size := 0, index := [], lastIndex := 1,
    kvpSize := 0, indexSize := 0, out := [] }

/-- `AOKVW._writeIndex`: serialize the in-memory index (with the writer's
compressor), advance `_size`, reset `_lastIndex` to the block length, add
to `_indexSize`, push the block. -/
def _writeIndex (wcompress : Option (List Nat → List Nat)) (s : WState) :
    WState :=
  let buf := serializeIndex s.index s.fileId wcompress
  { s with
    size := s.size + buf.length
    lastIndex := buf.length
    indexSize := s.indexSize + buf.length
    out := s.out ++ [.idxB buf] }

/-- `AOKVW._maybeWriteIndex`: write an Index block iff
`_lastIndex >= 0x40000000`, or `_kvpSize >= 0x10000` and
`_kvpSize >= _indexSize * 64`. -/
def _maybeWriteIndex (wcompress : Option (List Nat → List Nat))
    (s : WState) : WState :=
  if s.lastIndex ≥ 0x40000000 ∨
      (s.kvpSize ≥ 0x10000 ∧ s.kvpSize ≥ s.indexSize * 64)
  then _writeIndex wcompress s
  else s

/-- The KVP part of `AOKVW._setItemC(key, value, compress?)`: serialize a
KVP block at the current `_lastIndex`, record
`_index[key] = [bodyLen, size + hdr + keyLen]`, advance `_size`,
`_lastIndex` and `_kvpSize` by the block length, push the block. -/
def kvpStep (s : WState) (key : List Nat) (value : AV)
    (compress : Option (List Nat → List Nat)) : WState :=
  let r := serialize key value s.lastIndex s.fileId compress
  { s with
    index := jsUpdate s.index key (r.body, s.size + r.hdr + r.key)
    size := s.size + r.buf.length
    lastIndex := s.lastIndex + r.buf.length
    kvpSize := s.kvpSize + r.buf.length
    out := s.out ++ [.kvpB r] }

/-- `AOKVW._setItemC(key, value, compress?)`: push the KVP block, then
maybe write an index (always with the writer's own compressor). -/
def _setItemC (wcompress : Option (List Nat → List Nat)) (s : WState)
    (key : List Nat) (value : AV)
    (compress : Option (List Nat → List Nat)) : WState :=
  _maybeWriteIndex wcompress (kvpStep s key value compress)

/-- `AOKVW.setItem`: `_setItemC` with the writer's compressor. -/
def setItem (wcompress : Option (List Nat → List Nat)) (s : WState)
    (key : List Nat) (value : AV) : WState :=
  _setItemC wcompress s key value wcompress

/-- `AOKVW.setItemUncompressed`: `_setItemC` with no compressor. -/
def setItemUncompressed (wcompress : Option (List Nat → List Nat))
    (s : WState) (key : List Nat) (value : AV) : WState :=
  _setItemC wcompress s key value none

/-- `AOKVW.removeItem`: `setItem(key, null)`. -/
def removeItem (wcompress : Option (List Nat → List Nat)) (s : WState)
    (key : List Nat) : WState :=
  setItem wcompress s key (.json .jnull)

/-- `AOKVW.end`: write a final Index block (the end-of-stream sentinel
carries no bytes). -/
def wEnd (wcompress : Option (List Nat → List Nat)) (s : WState) : WState :=
  _writeIndex wcompress s

/-- A writer operation of a driving sequence S. -/
inductive WOp where
  | set : List Nat → AV → WOp
  | setU : List Nat → AV → WOp
  | del : List Nat → WOp

/-- Apply one writer operation. -/
def wStep (wcompress : Option (List Nat → List Nat)) (s : WState) :
    WOp → WState
  | .set k v => setItem wcompress s k v
  | .setU k v => setItemUncompressed wcompress s k v
  | .del k => removeItem wcompress s k

/-- Run a sequence of operations from the fresh writer. -/
def wRun (wcompress : Option (List Nat → List Nat)) (fileId : Nat)
    (ops : List WOp) : WState :=
  ops.foldl (wStep wcompress) (initW fileId)

/-- Run a sequence of operations and then `end()`. -/
def wRunEnd (wcompress : Option (List Nat → List Nat)) (fileId : Nat)
    (ops : List WOp) : WState :=
  wEnd wcompress (wRun wcompress fileId ops)

/-- The byte stream delivered by `AOKVW.stream`: the concatenation of the
pushed blocks, in order. -/
def wBytes (s : WState) : List Nat :=
  (s.out.map OutBlock.bytes).flatten

/-! ## A model of `JSON.parse`

Modelled from the spec: `JSON.parse` is a host builtin.  This is a strict
recursive-descent parser over UTF-8 bytes for the JSON fragment relevant
here (integer numerals; `JSON.parse` rejects trailing non-whitespace, raw
control bytes inside strings, and anything outside the grammar).  The fuel
argument is a termination device; `input length + 1` always suffices
because every recursive call consumes at least one byte. -/

/-- JSON whitespace bytes: tab, LF, CR, space. -/
def jsonWs (b : Nat) : Bool :=
  b = 9 || b = 10 || b = 13 || b = 32

/-- Drop leading JSON whitespace. -/
def skipWs (l : List Nat) : List Nat :=
  l.dropWhile jsonWs

/-- Hex digit value of an ASCII byte. -/
def hexVal (b : Nat) : Option Nat :=
  if 48 ≤ b ∧ b ≤ 57 then some (b - 48)
  else if 97 ≤ b ∧ b ≤ 102 then some (b - 87)
  else if 65 ≤ b ∧ b ≤ 70 then some (b - 55)
  else none

/-- UTF-8 encoding of a code point below 0x10000 (surrogate pairing is not
modelled; AOKV itself only escapes control bytes `\u00XX`). -/
def utf8Enc (cp : Nat) : List Nat :=
  if cp < 128 then [cp]
  else if cp < 2048 then [192 + cp / 64, 128 + cp % 64]
  else [224 + cp / 4096, 128 + cp / 64 % 64, 128 + cp % 64]

/-- Is `b` an ASCII decimal digit? -/
def isDigitB (b : Nat) : Bool :=
  48 ≤ b && b ≤ 57

/-- Parse a run of decimal digits as a natural number. -/
def parseNatNum (l : List Nat) : Option (Nat × List Nat) :=
  let ds := l.takeWhile isDigitB
  if ds.isEmpty then none
  else some (ds.foldl (fun a b => a * 10 + (b - 48)) 0, l.dropWhile isDigitB)

/-- Parse the remainder of a JSON string literal (after the opening quote),
returning the decoded bytes. -/
def parseStrRest : Nat → List Nat → Option (List Nat × List Nat)
  | 0, _ => none
  | _, [] => none
  | fuel + 1, b :: r =>
    if b = 34 then some ([], r)
    else if b = 92 then
      match r with
      | [] => none
      | e :: r2 =>
        let cont := fun (pre : List Nat) (r3 : List Nat) =>
          (parseStrRest fuel r3).map (fun x => (pre ++ x.1, x.2))
        if e = 34 then cont [34] r2
        else if e = 92 then cont [92] r2
        else if e = 47 then cont [47] r2
        else if e = 98 then cont [8] r2
        else if e = 102 then cont [12] r2
        else if e = 110 then cont [10] r2
        else if e = 114 then cont [13] r2
        else if e = 116 then cont [9] r2
        else if e = 117 then
          match r2 with
          | h1 :: h2 :: h3 :: h4 :: r3 =>
            match hexVal h1, hexVal h2, hexVal h3, hexVal h4 with
            | some a, some b1, some c, some d =>
                cont (utf8Enc (4096 * a + 256 * b1 + 16 * c + d)) r3
            | _, _, _, _ => none
          | _ => none
        else none
    else if b < 32 then none
    else (parseStrRest fuel r).map (fun x => (b :: x.1, x.2))

mutual

/-- Parse one JSON value (leading whitespace allowed). -/
def parseJVal : Nat → List Nat → Option (JVal × List Nat)
  | 0, _ => none
  | fuel + 1, l =>
    match skipWs l with
    | 110 :: 117 :: 108 :: 108 :: r => some (.jnull, r)
    | 116 :: 114 :: 117 :: 101 :: r => some (.jbool true, r)
    | 102 :: 97 :: 108 :: 115 :: 101 :: r => some (.jbool false, r)
    | 34 :: r =>
        (parseStrRest (r.length + 1) r).map (fun x => (.jstr x.1, x.2))
    | 91 :: r =>
        (match skipWs r with
         | 93 :: r2 => some (.jarr [], r2)
         | _ => (parseArrItems fuel r).map (fun x => (.jarr x.1, x.2)))
    | 123 :: r =>
        (match skipWs r with
         | 125 :: r2 => some (.jobj [], r2)
         | _ => (parseObjItems fuel r).map (fun x => (.jobj x.1, x.2)))
    | 45 :: r => (parseNatNum r).map (fun x => (.jint (-(x.1 : Int)), x.2))
    | b :: r =>
        if isDigitB b
        then (parseNatNum (b :: r)).map (fun x => (.jint (x.1 : Int), x.2))
        else none
    | [] => none

/-- Parse the comma-separated items of a non-empty array, through the
closing bracket. -/
def parseArrItems : Nat → List Nat → Option (List JVal × List Nat)
  | 0, _ => none
  | fuel + 1, l =>
    match parseJVal fuel l with
    | none => none
    | some (v, r) =>
      match skipWs r with
      | 44 :: r2 => (parseArrItems fuel r2).map (fun x => (v :: x.1, x.2))
      | 93 :: r2 => some ([v], r2)
      | _ => none

/-- Parse the comma-separated members of a non-empty object, through the
closing brace. -/
def parseObjItems : Nat → List Nat → Option (List (List Nat × JVal) × List Nat)
  | 0, _ => none
  | fuel + 1, l =>
    match skipWs l with
    | 34 :: r =>
      match parseStrRest (r.length + 1) r with
      | none => none
      | some (k, r2) =>
        match skipWs r2 with
        | 58 :: r3 =>
          match parseJVal fuel r3 with
          | none => none
          | some (v, r4) =>
            match skipWs r4 with
            | 44 :: r5 =>
                (parseObjItems fuel r5).map (fun x => ((k, v) :: x.1, x.2))
            | 125 :: r5 => some ([(k, v)], r5)
            | _ => none
        | _ => none
    | _ => none

end

/-- `JSON.parse`: parse one value and require only whitespace after it. -/
def jsonParse (l : List Nat) : Option JVal :=
  match parseJVal (l.length + 1) l with
  | some (v, r) => if (skipWs r).isEmpty then some v else none
  | none => none

/-! ## Deserializer (src/deserializer.ts) -/

/-- The information returned by `deserializeHeader` for one block header.
The body / index-content sizes are computed by JavaScript number
subtraction, which can go negative on malformed input, hence `Int`. -/
inductive HeaderInfo where
  | kvp : (size : Nat) → (keyN : Nat) → (body : Int) → HeaderInfo
  | idx : (size : Nat) → (indexN : Int) → HeaderInfo
  | unknown : (size : Nat) → HeaderInfo

/-- `deserializeHeader(data, fileId, opts)`: classify a block from up to 16
header bytes.  Magic comparisons follow the source: `magic0` is compared
directly, `magic1` through `~~` int32 truncation against
`aokvMagicKVP + fileId` / `aokvMagicIndex + fileId`, with the
`[aokvMagicKVP + fileId, aokvMagicMax + fileId)` window reserved for
forward-compatible "unknown" blocks. -/
def deserializeHeader (data : List Nat) (fileId : Nat)
    (checkHeader : Bool) : Except String (Option HeaderInfo) :=
  if data.length / 4 < 3 then
    if checkHeader then .error "AOKV header mismatch" else .ok none
  else if checkHeader ∧ readU32At data 0 ≠ aokvMagic then
    .error "AOKV header mismatch"
  else
    let magic1 := i32 (readU32At data 1)
    if magic1 = i32 (aokvMagicKVP + fileId) then
      if data.length / 4 < 4 then
        if checkHeader then .error "AOKV KVP header mismatch" else .ok none
      else
        let blockSz := readU32At data 2
        let keySz := readU32At data 3
        .ok (some (.kvp blockSz keySz
          ((blockSz : Int) - kvpHeaderSizeU8 - keySz - 4)))
    else if magic1 = i32 (aokvMagicIndex + fileId) then
      let blockSz := readU32At data 2
      .ok (some (.idx blockSz ((blockSz : Int) - magicHeaderSizeU8 - 4)))
    else if checkHeader ∧ (magic1 < i32 (aokvMagicKVP + fileId) ∨
        magic1 ≥ i32 (aokvMagicMax + fileId)) then
      .error "AOKV invalid header"
    else
      .ok (some (.unknown (readU32At data 2)))

/-- The runtime value produced by `deserializeKVP`. -/
inductive DV where
  | json : JVal → DV
  | undef : DV
  /-- `new ctor(src)` for a typed-array constructor applied to a
  `Uint8Array` argument: per the TypedArray constructor semantics this
  converts *element-wise*, producing one element per source byte, each
  element equal to that byte's value. -/
  | typedElems : TAKind → List Nat → DV
  /-- An `ArrayBuffer` with the given contents. -/
  | buffer : List Nat → DV

/-- The deserializer's decompression probe (`deserializeKVP` line
"Check if it actually is compressed"):
`body.length < 4 || body[4] !== 0x7b`; a JS read past the end yields
`undefined`, which differs from `0x7b`. -/
def kvpLooksCompressed (body : List Nat) : Prop :=
  body.length < 4 ∨ body.get? 4 ≠ some 0x7b

instance (body : List Nat) : Decidable (kvpLooksCompressed body) := by
  unfold kvpLooksCompressed; infer_instance

/-- JavaScript `new ta(post)` for the recognized constructors applied to a
`Uint8Array` (or, for an absent post, `undefined`, which the array
constructors treat as length 0): element-wise conversion for the eight
typed arrays, a `TypeError` for `DataView` (its constructor requires an
`ArrayBuffer`). -/
def jsNewTypedArray (k : TAKind) (src : List Nat) : Except String DV :=
  match k with
  | .dataView => .error "TypeError: DataView constructor requires an ArrayBuffer"
  | _ => .ok (.typedElems k src)

/-- Recover a view kind from the descriptor's `a` string. -/
def taOfName (a : List Nat) : Option TAKind :=
  if a = taName .uint8 then some .uint8
  else if a = taName .uint8Clamped then some .uint8Clamped
  else if a = taName .int16 then some .int16
  else if a = taName .uint16 then some .uint16
  else if a = taName .int32 then some .int32
  else if a = taName .uint32 then some .uint32
  else if a = taName .float32 then some .float32
  else if a = taName .float64 then some .float64
  else if a = taName .dataView then some .dataView
  else none

/-- Property lookup on a parsed JSON object (`desc.t`, `desc.a`, `desc.d`);
`none` is JavaScript `undefined`. -/
def jGet (j : JVal) (k : List Nat) : Option JVal :=
  match j with
  | .jobj es => (es.find? (fun e => e.1 = k)).map (·.2)
  | _ => none

/-- `deserializeKVP(body, decompress?)`.  Notable faithful details:
the decompression probe fires for *any* body shorter than 5 bytes; the
descriptor is `JSON.parse`d from `body.subarray(4, 4 + descSz)`; `post` is
`undefined` when nothing follows the descriptor; `t=1` invokes a
typed-array constructor on `post` (element-wise); `t=2` evaluates
`post!.buffer`, the *entire* backing buffer of the body (a `TypeError`
when `post` is `undefined`). -/
def deserializeKVP (body : List Nat)
    (decompress : Option (List Nat → List Nat)) : Except String DV :=
  let body := match decompress with
    | some f => if kvpLooksCompressed body then f body else body
    | none => body
  if body.length < 4 then .error "RangeError: invalid typed array length"
  else
    let descSz := readU32 body
    match jsonParse ((body.drop 4).take descSz) with
    | none => .error "SyntaxError: Unexpected token in JSON"
    | some desc =>
      let post : Option (List Nat) :=
        if body.length > 4 + descSz then some (body.drop (4 + descSz))
        else none
      match jGet desc tKey with
      | some (.jint 1) =>
        (match jGet desc aKey with
         | some (.jstr a) =>
           (match taOfName a with
            | some k => jsNewTypedArray k (post.getD [])
            | none => .error "Unrecognized TypedArray type")
         | _ => .error "Unrecognized TypedArray type")
      | some (.jint 2) =>
        (match post with
         | none => .error "TypeError: cannot read buffer of undefined"
         | some _ => .ok (.buffer body))
      | some (.jint 0) =>
        (match jGet desc dKey with
         | some d => .ok (.json d)
         | none => .ok .undef)
      | _ => .error "Unrecognized serialized type"

/-! ## Reader engine (src/aokvr.ts, class AOKVR) -/

/-- Relative index of `Blob.slice`: negative counts from the end, and the
result is clamped to `[0, length]`. -/
def jsSliceRel (n : Nat) (x : Int) : Nat :=
  if x < 0 then ((n : Int) + x).toNat else min x.toNat n

/-- `Blob.slice(a, b)` on a byte list. -/
def jsSlice (l : List Nat) (a b : Int) : List Nat :=
  let s := jsSliceRel l.length a
  let e := jsSliceRel l.length b
  (l.drop s).take (e - s)

/-- The canonical pread over a complete byte sequence, as produced by
`blobToPread`: `null` once the offset reaches the size, otherwise
`slice(offset, offset + count)` (possibly short). -/
def pread (file : List Nat) (count : Nat) (off : Int) : Option (List Nat) :=
  if (file.length : Int) ≤ off then none
  else some (jsSlice file off (off + count))

/-- The outcome of the reader's backwards tail walk (the `do … while
(false)` block of `AOKVR.index`), instrumented with the geometry the walk
used: `offset` is the forward-scan resume position it computed, `entries`
the parsed index entries in enumeration order, `contentRead` the
`(count, offset)` of the index-content `pread` when one happened, and
`indexStart` the accepted candidate block start. -/
structure TailOut where
  offset : Int
  result : Except String (List (List Nat × Int × Int))
  contentRead : Option (Nat × Int)
  indexStart : Option Int

/-- Reading `index[key][0]` / `index[key][1]` from a parsed entry value;
shapes the writer never produces read as 0 (JavaScript would propagate
`undefined` into the lookup record there). -/
def jReadLoc : JVal → Int × Int
  | .jarr (a :: b :: _) =>
      ((match a with | .jint i => i | _ => 0),
       (match b with | .jint i => i | _ => 0))
  | .jarr [a] => ((match a with | .jint i => i | _ => 0), 0)
  | _ => (0, 0)

/-- JavaScript `for (const key in x)` enumeration of a parsed JSON value:
object entries in order, array items under their decimal index keys,
nothing for primitives. -/
def jEnumEntries : JVal → List (List Nat × JVal)
  | .jobj es => es
  | .jarr items => items.enum.map (fun e => (natDecimal e.1, e.2))
  | _ => []

/-- The backwards tail walk of `AOKVR.index`: read the last four bytes as a
back-distance, jump back, demand an Index magic header, read
`BLOCK_SIZE − 12` content bytes at `candidate + 12`, optionally decompress
(probe byte 0), set the resume offset to `candidate + 12 + (BLOCK_SIZE −
12) + 4`, and `JSON.parse` the content (a parse failure escapes from
`index()` as an exception).  Any earlier failure abandons the walk with
resume offset 0. -/
def readerTailWalk (file : List Nat) (fileId : Nat)
    (decompress : Option (List Nat → List Nat)) : TailOut :=
  let abandon : TailOut := ⟨0, .ok [], none, none⟩
  let offset : Int := (file.length : Int) - 4
  match pread file 4 offset with
  | none => abandon
  | some lastIndexU8 =>
    if lastIndexU8.length < 4 then abandon else
    let offset := offset - readU32 lastIndexU8
    if offset < 0 then abandon else
    match pread file magicHeaderSizeU8 offset with
    | none => abandon
    | some hdr =>
      if hdr.length < magicHeaderSizeU8 then abandon else
      if readU32At hdr 0 ≠ aokvMagic ∨
          i32 (readU32At hdr 1) ≠ i32 (aokvMagicIndex + fileId) then
        abandon
      else
        let cand := offset
        let offset := offset + magicHeaderSizeU8
        let indexSz : Int := (readU32At hdr 2 : Int) - magicHeaderSizeU8
        match pread file indexSz.toNat offset with
        | none => abandon
        | some indexU8 =>
          if (indexU8.length : Int) < indexSz then abandon else
          let indexU8 := match decompress with
            | some f =>
                if indexU8.length ≠ 0 ∧ indexU8.get? 0 ≠ some 0x7b
                then f indexU8 else indexU8
            | none => indexU8
          let offset := offset + indexSz + 4
          let parsed : Except String (List (List Nat × Int × Int)) :=
            match jsonParse indexU8 with
            | none => .error "SyntaxError: Unexpected token in JSON"
            | some j =>
                .ok ((jEnumEntries j).map (fun e => (e.1, jReadLoc e.2)))
          ⟨offset, parsed,
           some (indexSz.toNat, cand + magicHeaderSizeU8),
           some cand⟩

/-- The forward scan of `AOKVR.index` ("go through every header after the
index"): read up to 16 header bytes, classify, record KVP locations,
skip other blocks by their stated size, and stop at any short read.  The
fuel argument is a termination device (the source loop does not terminate
on a zero-sized foreign block); `file.length + 2` suffices on any
writer-produced stream. -/
def forwardScan (file : List Nat) (fileId : Nat) (checkHeaders : Bool) :
    Nat → List (List Nat × Int × Int) → Int →
    Except String (List (List Nat × Int × Int))
  | 0, _, _ => .error "model: scan fuel exhausted"
  | fuel + 1, m, offset =>
    match pread file maxHeaderSizeU8 offset with
    | none => .ok m
    | some hdr =>
      if hdr.length < magicHeaderSizeU8 then .ok m else
      match deserializeHeader hdr fileId checkHeaders with
      | .error e => .error e
      | .ok none => .ok m
      | .ok (some (.idx size _)) =>
          forwardScan file fileId checkHeaders fuel m (offset + size)
      | .ok (some (.unknown size)) =>
          forwardScan file fileId checkHeaders fuel m (offset + size)
      | .ok (some (.kvp _ keyN bodyI)) =>
        let offset := offset + kvpHeaderSizeU8
        match pread file keyN offset with
        | none => .ok m
        | some keyU8 =>
          if keyU8.length < keyN then .ok m else
          let offset := offset + keyN
          forwardScan file fileId checkHeaders fuel
            (jsUpdate m keyU8 (bodyI, offset)) (offset + bodyI + 4)

/-- The first-block identity check of `AOKVR.index` (on by default):
12 bytes at offset 0 must carry the KVP magics for this `fileId`. -/
def readerCheckFirst (file : List Nat) (fileId : Nat) : Except String Unit :=
  match pread file magicHeaderSizeU8 0 with
  | none => .error "Invalid AOKV file"
  | some hdr =>
    if hdr.length < magicHeaderSizeU8 then .error "Invalid AOKV file"
    else if readU32At hdr 0 ≠ aokvMagic ∨
        i32 (readU32At hdr 1) ≠ i32 (aokvMagicKVP + fileId) then
      .error "Invalid AOKV file"
    else .ok ()

/-- The reader's state after a successful `index()`: the key map, plus the
instrumented tail-walk outcome. -/
structure RIndex where
  map : List (List Nat × Int × Int)
  tail : TailOut

/-- `AOKVR.index(opts)` over a complete byte sequence, with the
`blobToPread` pread.  Defaults: `noCheckFirstHeader = false`,
`checkHeaders = false`. -/
def readerIndex (file : List Nat) (fileId : Nat)
    (decompress : Option (List Nat → List Nat))
    (noCheckFirstHeader : Bool := false) (checkHeaders : Bool := false) :
    Except String RIndex := do
  if ¬ noCheckFirstHeader then readerCheckFirst file fileId
  let tw := readerTailWalk file fileId decompress
  let entries ← tw.result
  let m0 := entries.foldl (fun m e => jsUpdate m e.1 e.2) []
  let m ← forwardScan file fileId checkHeaders (file.length + 2) m0 tw.offset
  pure ⟨m, tw⟩

/-- `AOKVR.keys()`: the indexed keys in map order. -/
def readerKeys (r : RIndex) : List (List Nat) :=
  r.map.map (·.1)

/-- Association-list lookup (JS property read; `none` = `undefined`). -/
def jsLookup {V : Type} (m : List (List Nat × V)) (k : List Nat) :
    Option V :=
  (m.find? (fun e => e.1 = k)).map (·.2)

/-- `AOKVR.getItem(key)`: look the key up in the built map, pread its body,
return `null` on an unknown key or a short read, otherwise deserialize. -/
def getItem (file : List Nat) (decompress : Option (List Nat → List Nat))
    (m : List (List Nat × Int × Int)) (key : List Nat) :
    Except String (Option DV) :=
  match jsLookup m key with
  | none => .ok none
  | some loc =>
    match pread file loc.1.toNat loc.2 with
    | none => .ok none
    | some body =>
      if (body.length : Int) < loc.1 then .ok none
      else (deserializeKVP body decompress).map some

/-! ## Derived observations on writer output (for stating claims) -/

/-- The footer word of an emitted block (its last four bytes). -/
def OutBlock.footerVal (b : OutBlock) : Nat :=
  readU32 (b.bytes.drop (b.bytes.length - 4))

/-- Is a pushed block an Index block? -/
def OutBlock.isIdx : OutBlock → Bool
  | .idxB _ => true
  | .kvpB _ => false

/-- Number of Index blocks pushed. -/
def countIdx (s : WState) : Nat :=
  (s.out.filter OutBlock.isIdx).length

/-- Pair every pushed block with its absolute start offset. -/
def blockStarts : List OutBlock → List (Nat × OutBlock)
  | [] => []
  | b :: rest =>
      (0, b) :: (blockStarts rest).map (fun e => (e.1 + b.bytes.length, e.2))

/-- Total byte length of a block list. -/
def outLen (l : List OutBlock) : Nat :=
  (l.map (fun b => b.bytes.length)).sum

/-- The blocks pushed after the most recent Index block. -/
def afterLastIdx (l : List OutBlock) : List OutBlock :=
  (l.reverse.takeWhile (fun b => ! b.isIdx)).reverse

/-- KVP bytes pushed after the most recent Index block (the
snapshot-relative counter the spec's cadence rule describes). -/
def kvpBytesAfterLastIdx (l : List OutBlock) : Nat :=
  outLen (afterLastIdx l)

/-- Start offset of the most recent Index block, if any. -/
def lastIdxStart (l : List OutBlock) : Option Nat :=
  (((blockStarts l).filter (fun e => e.2.isIdx)).getLast?).map (·.1)

/-- Byte distance from the start of the most recent Index block to the end
of the pushed output (total size when no Index exists). -/
def distSinceLastIdxStart (l : List OutBlock) : Nat :=
  match lastIdxStart l with
  | none => outLen l
  | some st => outLen l - st

/-! ## Spec-side definitions

These follow the wording of the claims being checked (not the source);
each is compared against the behaviour of the embedded code. -/

/-- The key, value and per-call compressor of a writer operation
(`removeItem(k)` is `setItem(k, null)`). -/
def opParts (wcompress : Option (List Nat → List Nat)) :
    WOp → List Nat × AV × Option (List Nat → List Nat)
  | .set k v => (k, v, wcompress)
  | .setU k v => (k, v, none)
  | .del k => (k, .json .jnull, wcompress)

/-- One operation of a driving sequence, annotated with the absolute start
offset of the KVP block it emits, the block's length, and the serializer
record itself. -/
structure OpRec where
  key : List Nat
  value : AV
  start : Nat
  len : Nat
  ser : SerOut

/-- Annotate each operation of a run with its KVP block geometry. -/
def annotateOps (wcompress : Option (List Nat → List Nat)) :
    WState → List WOp → List OpRec
  | _, [] => []
  | s, op :: rest =>
    let p := opParts wcompress op
    let r := serialize p.1 p.2.1 s.lastIndex s.fileId p.2.2
    { key := p.1, value := p.2.1, start := s.size, len := r.buf.length,
      ser := r } ::
      annotateOps wcompress (wStep wcompress s op) rest

/-- Claim C2's predicted result of `getItem(k)` over a prefix of length
`n`: the value of the most recent completed `set(k, ·)` whose full KVP
block fits within the prefix, or `null` (`none`) if no such block fits. -/
def specC2Value (wcompress : Option (List Nat → List Nat)) (fileId : Nat)
    (ops : List WOp) (n : Nat) (k : List Nat) : Option AV :=
  (((annotateOps wcompress (initW fileId) ops).filter
      (fun e => e.key = k ∧ e.start + e.len ≤ n)).getLast?).map (·.value)

/-- Claim C2's predicted binding for `k` in the reader's map over a prefix
of length `n` — amended form: the most recent `set(k, ·)` whose KVP header
and key fit within the prefix (strictly more than the 16 header bytes must
be present, and the key's `16 + |k|` bytes must all be present), whether
or not its body does. -/
def specHeaderFitRec (wcompress : Option (List Nat → List Nat))
    (fileId : Nat) (ops : List WOp) (n : Nat) (k : List Nat) :
    Option OpRec :=
  ((annotateOps wcompress (initW fileId) ops).filter
      (fun e => e.key = k ∧ e.start + kvpHeaderSizeU8 < n ∧
        e.start + kvpHeaderSizeU8 + k.length ≤ n)).getLast?

/-- The Index block bytes determined by a (possibly compressed) content:
`serializeIndex` always produces this shape. -/
def idxBlockBytes (fid : Nat) (content : List Nat) : List Nat :=
  u32le aokvMagic ++ u32le (aokvMagicIndex + fid) ++
  u32le (magicHeaderSizeU8 + content.length + 4) ++ content ++
  u32le (magicHeaderSizeU8 + content.length)

/-- Structural description of a block the writer can push: a KVP record is
a `serialize` output for some key, body and footer base, an Index block is
`idxBlockBytes` for some content. -/
def GoodBlock (fid : Nat) : OutBlock → Prop
  | .kvpB r => ∃ k body lio, r.buf = kvpBlockBytes fid k body lio ∧
      r.hdr = kvpHeaderSizeU8 ∧ r.key = k.length ∧ r.body = body.length ∧
      r.foot = 4
  | .idxB buf => ∃ content, buf = idxBlockBytes fid content

/-- The bytes of a block list. -/
def bytesOf (bs : List OutBlock) : List Nat :=
  (bs.map OutBlock.bytes).flatten

/-- The blocks one writer operation pushes: the KVP block, then possibly
the snapshot Index block `_maybeWriteIndex` emits. -/
def stepBlocks (wc : Option (List Nat → List Nat)) (s : WState)
    (op : WOp) : List OutBlock :=
  let p := opParts wc op
  let s1 := kvpStep s p.1 p.2.1 p.2.2
  .kvpB (serialize p.1 p.2.1 s.lastIndex s.fileId p.2.2) ::
    (if s1.lastIndex ≥ 0x40000000 ∨
        (s1.kvpSize ≥ 0x10000 ∧ s1.kvpSize ≥ s1.indexSize * 64)
     then [.idxB (serializeIndex s1.index s1.fileId wc)] else [])

/-- The blocks a whole run pushes, in order. -/
def runBlocks (wc : Option (List Nat → List Nat)) :
    WState → List WOp → List OutBlock
  | _, [] => []
  | s, op :: rest => stepBlocks wc s op ++ runBlocks wc (wStep wc s op) rest

/-- The structural writer invariant for the reader proof: the file id is
fixed and every pushed block is a well-formed KVP or Index block. -/
def WGood (fid : Nat) (s : WState) : Prop :=
  s.fileId = fid ∧ ∀ b ∈ s.out, GoodBlock fid b


/-- The map entry the forward scan records for a KVP block starting at
absolute offset `o`. -/
def scanEntry (o : Nat) (r : SerOut) : List Nat × Int × Int :=
  (r.keyBytes, ((r.body : Int), ((o + kvpHeaderSizeU8 + r.key : Nat) : Int)))

/-- The effect of the forward scan on the key map for one block that lies
entirely within the readable window. -/
def applyFullB (m : List (List Nat × Int × Int)) (o : Nat) :
    OutBlock → List (List Nat × Int × Int)
  | .kvpB r => jsUpdate m (scanEntry o r).1 (scanEntry o r).2
  | .idxB _ => m

/-- The effect of the forward scan for the first block that is cut by the
window: the KVP is still recorded when strictly more than its 16 header
bytes and all of its key bytes are readable. -/
def cutApplyB (m : List (List Nat × Int × Int)) (o n' : Nat) :
    OutBlock → List (List Nat × Int × Int)
  | .kvpB r =>
      if kvpHeaderSizeU8 < n' ∧ kvpHeaderSizeU8 + r.key ≤ n'
      then jsUpdate m (scanEntry o r).1 (scanEntry o r).2
      else m
  | .idxB _ => m

/-- The forward scan's overall effect on the key map, as a fold over the
pushed blocks: blocks fully inside the `n'`-byte window are applied and
the first cut block ends the scan (possibly recording a final truncated
KVP). -/
def scanFoldM (m : List (List Nat × Int × Int)) :
    Nat → Nat → List OutBlock → List (List Nat × Int × Int)
  | _, _, [] => m
  | o, n', b :: rest =>
    if b.bytes.length ≤ n'
    then scanFoldM (applyFullB m o b) (o + b.bytes.length)
      (n' - b.bytes.length) rest
    else cutApplyB m o n' b

/-- The entries the forward scan records, in order. -/
def scanRecs : Nat → Nat → List OutBlock → List (List Nat × Int × Int)
  | _, _, [] => []
  | o, n', b :: rest =>
    if b.bytes.length ≤ n'
    then (match b with
          | .kvpB r => [scanEntry o r]
          | .idxB _ => []) ++
      scanRecs (o + b.bytes.length) (n' - b.bytes.length) rest
    else (match b with
          | .kvpB r =>
            if kvpHeaderSizeU8 < n' ∧ kvpHeaderSizeU8 + r.key ≤ n'
            then [scanEntry o r] else []
          | .idxB _ => [])

/-- The map entry the amended claim C2 predicts for an annotated write
within an `n`-byte prefix, when its header and key fit. -/
def fitRec (n : Nat) (e : OpRec) : Option (List Nat × Int × Int) :=
  if e.start + kvpHeaderSizeU8 < n ∧
      e.start + kvpHeaderSizeU8 + e.key.length ≤ n
  then some (e.key, ((e.ser.body : Int),
    ((e.start + kvpHeaderSizeU8 + e.key.length : Nat) : Int)))
  else none

/-- Claim C7's stated decompression condition: body length at least 5 and
byte index 4 not `0x7B`. -/
def specC7Cond (body : List Nat) : Prop :=
  5 ≤ body.length ∧ body.get? 4 ≠ some 0x7b

instance (body : List Nat) : Decidable (specC7Cond body) := by
  unfold specC7Cond; infer_instance

/-- Claim C8's stated snapshot condition, in terms of the running distance
since the most recent Index block, the KVP bytes written since the most
recent Index block, and the total Index bytes written so far. -/
def specC8ShouldSnapshot (dist kvpSince totalIdx : Nat) : Prop :=
  dist ≥ 2 ^ 30 ∨ (kvpSince ≥ 2 ^ 16 ∧ kvpSince ≥ 64 * totalIdx)

instance (dist kvpSince totalIdx : Nat) :
    Decidable (specC8ShouldSnapshot dist kvpSince totalIdx) := by
  unfold specC8ShouldSnapshot; infer_instance

/-- Element count of a typed-array view from its window bytes (claim C5's
"same element length"). -/
def taWindowElemCount (k : TAKind) (w : List Nat) : Nat :=
  w.length / taElemSize k

/-- The signed 16-bit elements of an `Int16Array` window (little-endian),
for comparing contents in claim C5. -/
def int16WindowElems : List Nat → List Int
  | a :: b :: r =>
      (if a + 256 * b < 32768 then ((a + 256 * b : Nat) : Int)
       else (a + 256 * b : Int) - 65536) :: int16WindowElems r
  | _ => []

/-- The element count of a decoded typed array (`typedElems` holds one
element per source byte). -/
def DV.typedLength : DV → Option Nat
  | .typedElems _ src => some src.length
  | _ => none

/-! ## Concrete driving scenarios used by the claims -/

/-- S = `setItem("k", null)` — a one-write sequence (no compression). -/
def opsA : List WOp := [.set [107] (.json .jnull)]

/-- The complete file for `opsA` followed by `end()`. -/
def fileA : List Nat := wBytes (wRunEnd none 0 opsA)

/-- S = `setItem("a", 1); setItem("a", 2)`. -/
def opsB : List WOp := [.set [97] (.json (.jint 1)), .set [97] (.json (.jint 2))]

/-- The complete file for `opsB` followed by `end()`. -/
def fileB : List Nat := wBytes (wRunEnd none 0 opsB)

/-- A 60-byte prefix of `fileB`: all of the first KVP block (38 bytes) and
the header, key and 5 body bytes of the second. -/
def prefB : List Nat := fileB.take 60

/-- A writer stream containing one `Int16Array` write (window bytes
`[2, 1]`, the single element 258) and no Index block. -/
def fileT : List Nat := wBytes (wRun none 0 [.set [107] (.typed .int16 [2, 1])])

/-- A writer stream containing one 3-byte `ArrayBuffer` write and no Index
block. -/
def fileR : List Nat := wBytes (wRun none 0 [.set [107] (.buf [1, 2, 3])])

/-- A 64 KiB `ArrayBuffer` value (its KVP block crosses the `2^16` cadence
threshold by itself). -/
def bigV : AV := .buf (List.replicate 65536 0)

/-- The 64 KiB write followed by a tiny write. -/
def opsBig : List WOp := [.set [97] bigV, .set [98] (.json .jnull)]

/-- The writer state after one write of a 64 KiB buffer `w`: the
65568-byte KVP block (body 65547 at offset 17) triggered an immediate
snapshot, whose Index block (`{"a": [65547, 17]}`) is 32 bytes. -/
def sBigW (w : List Nat) : WState :=
  { fileId := 0, size := 65600, index := [([97], 65547, 17)],
    lastIndex := 32, kvpSize := 65568, indexSize := 32,
    out := [.kvpB (serialize [97] (.buf w) 1 0 none),
            .idxB (serializeIndex [([97], 65547, 17)] 0 none)] }

/-- The writer state of `opsBig` at the second snapshot check (just after
the 41-byte KVP block of the second write, before `_maybeWriteIndex`). -/
def sBigChkW (w : List Nat) : WState :=
  { fileId := 0, size := 65641,
    index := [([97], 65547, 17), ([98], 20, 65617)],
    lastIndex := 73, kvpSize := 65609, indexSize := 32,
    out := [.kvpB (serialize [97] (.buf w) 1 0 none),
            .idxB (serializeIndex [([97], 65547, 17)] 0 none),
            .kvpB (serialize [98] (.json .jnull) 32 0 none)] }

/-- The second-check state at the concrete 64 KiB buffer. -/
def sBigChk : WState := sBigChkW (List.replicate 65536 0)

/-- The index map `{"k": [20, 17]}` (one entry), for probing
`serializeIndex`. -/
def idxOne : List (List Nat × Nat × Nat) := [([107], 20, 17)]

/-! ## General lemmas about the embedding -/

@[simp] theorem u32le_length (n : Nat) : (u32le n).length = 4 := rfl

theorem readU32_u32le (n : Nat) : readU32 (u32le n) = n % 4294967296 := by
  simp only [u32le, readU32, List.getD]
  simp only [List.get?_eq_getElem?, List.getElem?_cons_zero,
    List.getElem?_cons_succ, Option.getD_some]
  omega

theorem readU32_u32le_append (n : Nat) (r : List Nat) :
    readU32 (u32le n ++ r) = n % 4294967296 := by
  have : u32le n ++ r =
      n % 256 :: (n / 256 % 256 :: (n / 65536 % 256 ::
        (n / 16777216 % 256 :: r))) := rfl
  rw [this]
  simp only [readU32, List.getD, List.get?_eq_getElem?,
    List.getElem?_cons_zero, List.getElem?_cons_succ, Option.getD_some]
  omega

theorem i32_mod (n : Nat) : i32 (n % 4294967296) = i32 n := by
  simp [i32, Nat.mod_mod]

theorem compressBody_none (b : List Nat) : compressBody b none = b := rfl

theorem plainBody_length (v : AV) :
    (plainBody v).length =
      4 + (jsonBytes (descOf v)).length + (postOf v).length := by
  simp [plainBody, u32le]
  omega

theorem kvpBlockBytes_length (fid : Nat) (k b : List Nat) (lio : Nat) :
    (kvpBlockBytes fid k b lio).length = 20 + k.length + b.length := by
  simp [kvpBlockBytes, u32le, kvpHeaderSizeU8]
  omega

theorem serialize_buf_length (k : List Nat) (v : AV) (lio fid : Nat)
    (c : Option (List Nat → List Nat)) :
    (serialize k v lio fid c).buf.length =
      20 + k.length + (compressBody (plainBody v) c).length := by
  simp [serialize, kvpBlockBytes_length]

theorem serializeIndex_length (i : List (List Nat × Nat × Nat)) (fid : Nat)
    (c : Option (List Nat → List Nat)) :
    (serializeIndex i fid c).length = 16 + (idxContent i c).length := by
  simp [serializeIndex, u32le, magicHeaderSizeU8]
  omega

/-- Dropping everything but the last four bytes of `a ++ u32le f`. -/
theorem drop_concat_u32le (a : List Nat) (f : Nat) :
    (a ++ u32le f).drop ((a ++ u32le f).length - 4) = u32le f := by
  have h : (a ++ u32le f).length - 4 = a.length := by
    simp [u32le]
  rw [h, List.drop_left]

/-- The KVP block bytes, reassociated to isolate the footer. -/
theorem kvpBlockBytes_assoc (fid : Nat) (k b : List Nat) (lio : Nat) :
    kvpBlockBytes fid k b lio =
      (u32le aokvMagic ++ u32le (aokvMagicKVP + fid) ++
       u32le (kvpHeaderSizeU8 + k.length + b.length + 4) ++
       u32le k.length ++ k ++ b) ++
      u32le (lio + kvpHeaderSizeU8 + k.length + b.length) := by
  simp [kvpBlockBytes, List.append_assoc]

/-- The footer bytes of a serialized KVP block: the 32-bit store of
`lastIndexOffset + 16 + |key| + |body|`. -/
theorem serialize_footer (k : List Nat) (v : AV) (lio fid : Nat)
    (c : Option (List Nat → List Nat)) :
    (serialize k v lio fid c).buf.drop
        ((serialize k v lio fid c).buf.length - 4) =
      u32le (lio + kvpHeaderSizeU8 + k.length +
        (compressBody (plainBody v) c).length) := by
  show (kvpBlockBytes fid k (compressBody (plainBody v) c) lio).drop _ = _
  rw [kvpBlockBytes_assoc]
  exact drop_concat_u32le _ _

/-- The Index block bytes, reassociated to isolate the footer. -/
theorem serializeIndex_assoc (i : List (List Nat × Nat × Nat)) (fid : Nat)
    (c : Option (List Nat → List Nat)) :
    serializeIndex i fid c =
      (u32le aokvMagic ++ u32le (aokvMagicIndex + fid) ++
       u32le (magicHeaderSizeU8 + (idxContent i c).length + 4) ++
       idxContent i c) ++
      u32le (magicHeaderSizeU8 + (idxContent i c).length) := by
  simp [serializeIndex, List.append_assoc]

/-- The footer bytes of a serialized Index block: the 32-bit store of
`12 + |content|`, which is `BLOCK_SIZE - 4`. -/
theorem serializeIndex_footer (i : List (List Nat × Nat × Nat)) (fid : Nat)
    (c : Option (List Nat → List Nat)) :
    (serializeIndex i fid c).drop ((serializeIndex i fid c).length - 4) =
      u32le (magicHeaderSizeU8 + (idxContent i c).length) := by
  rw [serializeIndex_assoc]
  exact drop_concat_u32le _ _

/-- The stored `BLOCK_SIZE` field of a serialized Index block. -/
theorem serializeIndex_blockSz (i : List (List Nat × Nat × Nat)) (fid : Nat)
    (c : Option (List Nat → List Nat)) :
    readU32At (serializeIndex i fid c) 2 =
      (magicHeaderSizeU8 + (idxContent i c).length + 4) % 4294967296 := by
  show readU32 ((serializeIndex i fid c).drop 8) = _
  simp only [serializeIndex]
  have h : (u32le aokvMagic ++ u32le (aokvMagicIndex + fid) ++
      (u32le (magicHeaderSizeU8 + (idxContent i c).length + 4) ++
       (idxContent i c ++
        u32le (magicHeaderSizeU8 + (idxContent i c).length)))) =
      (u32le aokvMagic ++ u32le (aokvMagicIndex + fid)) ++
      (u32le (magicHeaderSizeU8 + (idxContent i c).length + 4) ++
       (idxContent i c ++
        u32le (magicHeaderSizeU8 + (idxContent i c).length))) := by
    simp [List.append_assoc]
  rw [List.append_assoc, List.append_assoc, h]
  have hl : (u32le aokvMagic ++ u32le (aokvMagicIndex + fid)).length = 8 := by
    simp [u32le]
  rw [show (8 : Nat) = (u32le aokvMagic ++ u32le (aokvMagicIndex + fid)).length from hl.symm,
    List.drop_left]
  exact readU32_u32le_append _ _

theorem pread_none_iff (P : List Nat) (c : Nat) (o : Int) :
    pread P c o = none ↔ (P.length : Int) ≤ o := by
  simp [pread]

theorem pread_nat (P : List Nat) (c o : Nat) (h : o < P.length) :
    pread P c (o : Int) = some ((P.drop o).take c) := by
  rw [pread, if_neg (by exact_mod_cast Nat.not_le.mpr h)]
  congr 1
  rw [jsSlice]
  have hs : jsSliceRel P.length (o : Int) = o := by
    rw [jsSliceRel, if_neg (by omega)]
    simp [Int.toNat_ofNat]
    omega
  have he : jsSliceRel P.length ((o : Int) + c) = min (o + c) P.length := by
    rw [jsSliceRel, if_neg (by omega)]
    have : ((o : Int) + c).toNat = o + c := by omega
    rw [this]
  rw [hs, he]
  rw [List.take_eq_take]
  simp only [List.length_drop]
  omega

theorem readU32At_cons4 (a : Nat) (rest : List Nat) (i : Nat) :
    readU32At (u32le a ++ rest) (i + 1) = readU32At rest i := by
  have h : (u32le a ++ rest).drop (4 * (i + 1)) = rest.drop (4 * i) := by
    have h4 : 4 * (i + 1) = (u32le a).length + 4 * i := by
      simp [u32le]
      omega
    rw [h4, List.drop_append]
  rw [readU32At, readU32At, h]

theorem readU32At_zero (a : Nat) (rest : List Nat) :
    readU32At (u32le a ++ rest) 0 = a % 4294967296 := by
  rw [readU32At, List.drop_zero]
  exact readU32_u32le_append a rest

theorem getD_take (l : List Nat) (n j d : Nat) (h : j < n) :
    (l.take n).getD j d = l.getD j d := by
  simp only [List.getD, List.get?_eq_getElem?]
  rw [List.getElem?_take, if_pos h]

theorem readU32At_take (l : List Nat) (i n : Nat) (h : 4 * i + 4 ≤ n) :
    readU32At (l.take n) i = readU32At l i := by
  rw [readU32At, readU32At]
  have hdt : (l.take n).drop (4 * i) = (l.drop (4 * i)).take (n - 4 * i) := by
    rw [List.drop_take]
  rw [hdt, readU32, readU32]
  rw [getD_take _ _ _ _ (by omega), getD_take _ _ _ _ (by omega),
    getD_take _ _ _ _ (by omega), getD_take _ _ _ _ (by omega)]

theorem i32_eq_iff (a b : Nat) :
    i32 a = i32 b ↔ a % 4294967296 = b % 4294967296 := by
  unfold i32
  simp only []
  constructor
  · intro h
    by_cases h1 : a % 4294967296 < 2147483648 <;>
      by_cases h2 : b % 4294967296 < 2147483648 <;>
      simp only [if_pos, if_neg, h1, h2, if_true, if_false] at h <;>
      omega
  · intro h
    rw [h]

/-- The KVP block bytes, fully right-associated. -/
theorem kvpBlockBytes_shape (fid : Nat) (k b : List Nat) (lio : Nat) :
    kvpBlockBytes fid k b lio =
      u32le aokvMagic ++ (u32le (aokvMagicKVP + fid) ++
      (u32le (kvpHeaderSizeU8 + k.length + b.length + 4) ++
      (u32le k.length ++
      (k ++ (b ++
      u32le (lio + kvpHeaderSizeU8 + k.length + b.length)))))) := by
  simp [kvpBlockBytes, List.append_assoc]

theorem kvpBlockBytes_words (fid : Nat) (k b : List Nat) (lio : Nat)
    (T : List Nat) :
    readU32At (kvpBlockBytes fid k b lio ++ T) 0 =
      aokvMagic % 4294967296 ∧
    readU32At (kvpBlockBytes fid k b lio ++ T) 1 =
      (aokvMagicKVP + fid) % 4294967296 ∧
    readU32At (kvpBlockBytes fid k b lio ++ T) 2 =
      (kvpHeaderSizeU8 + k.length + b.length + 4) % 4294967296 ∧
    readU32At (kvpBlockBytes fid k b lio ++ T) 3 =
      k.length % 4294967296 := by
  rw [kvpBlockBytes_shape]
  simp only [List.append_assoc]
  refine ⟨readU32At_zero _ _, ?_, ?_, ?_⟩
  · rw [show (1 : Nat) = 0 + 1 from rfl, readU32At_cons4]
    exact readU32At_zero _ _
  · rw [show (2 : Nat) = 1 + 1 from rfl, readU32At_cons4,
      show (1 : Nat) = 0 + 1 from rfl, readU32At_cons4]
    exact readU32At_zero _ _
  · rw [show (3 : Nat) = 2 + 1 from rfl, readU32At_cons4,
      show (2 : Nat) = 1 + 1 from rfl, readU32At_cons4,
      show (1 : Nat) = 0 + 1 from rfl, readU32At_cons4]
    exact readU32At_zero _ _

/-- The Index block bytes, fully right-associated. -/
theorem idxBlockBytes_shape (fid : Nat) (content : List Nat) :
    idxBlockBytes fid content =
      u32le aokvMagic ++ (u32le (aokvMagicIndex + fid) ++
      (u32le (magicHeaderSizeU8 + content.length + 4) ++
      (content ++ u32le (magicHeaderSizeU8 + content.length)))) := by
  simp [idxBlockBytes, List.append_assoc]

theorem idxBlockBytes_words (fid : Nat) (content T : List Nat) :
    readU32At (idxBlockBytes fid content ++ T) 0 =
      aokvMagic % 4294967296 ∧
    readU32At (idxBlockBytes fid content ++ T) 1 =
      (aokvMagicIndex + fid) % 4294967296 ∧
    readU32At (idxBlockBytes fid content ++ T) 2 =
      (magicHeaderSizeU8 + content.length + 4) % 4294967296 := by
  rw [idxBlockBytes_shape]
  simp only [List.append_assoc]
  refine ⟨readU32At_zero _ _, ?_, ?_⟩
  · rw [show (1 : Nat) = 0 + 1 from rfl, readU32At_cons4]
    exact readU32At_zero _ _
  · rw [show (2 : Nat) = 1 + 1 from rfl, readU32At_cons4,
      show (1 : Nat) = 0 + 1 from rfl, readU32At_cons4]
    exact readU32At_zero _ _

theorem kvpBlockBytes_length' (fid : Nat) (k b : List Nat) (lio : Nat) :
    (kvpBlockBytes fid k b lio).length =
      kvpHeaderSizeU8 + k.length + b.length + 4 := by
  rw [kvpBlockBytes_length]
  simp [kvpHeaderSizeU8]
  omega

theorem idxBlockBytes_length (fid : Nat) (content : List Nat) :
    (idxBlockBytes fid content).length =
      magicHeaderSizeU8 + content.length + 4 := by
  simp [idxBlockBytes, u32le, magicHeaderSizeU8]
  omega

theorem serializeIndex_eq_idxBlockBytes (i : List (List Nat × Nat × Nat))
    (fid : Nat) (c : Option (List Nat → List Nat)) :
    serializeIndex i fid c = idxBlockBytes fid (idxContent i c) := rfl

theorem bytesOf_nil : bytesOf [] = [] := rfl

theorem bytesOf_cons (b : OutBlock) (rest : List OutBlock) :
    bytesOf (b :: rest) = b.bytes ++ bytesOf rest := by
  simp [bytesOf]

theorem bytesOf_append (l₁ l₂ : List OutBlock) :
    bytesOf (l₁ ++ l₂) = bytesOf l₁ ++ bytesOf l₂ := by
  simp [bytesOf]

theorem take16_four_u32 (a b c d : Nat) (R : List Nat) :
    (u32le a ++ (u32le b ++ (u32le c ++ (u32le d ++ R)))).take 16 =
      u32le a ++ (u32le b ++ (u32le c ++ u32le d)) := by
  have h : (u32le a ++ (u32le b ++ (u32le c ++ (u32le d ++ R)))) =
      (u32le a ++ u32le b ++ u32le c ++ u32le d) ++ R := by
    simp [List.append_assoc]
  rw [h]
  have hl : (u32le a ++ u32le b ++ u32le c ++ u32le d).length = 16 := by
    simp [u32le]
  rw [show (16 : Nat) = (u32le a ++ u32le b ++ u32le c ++ u32le d).length
    from hl.symm, List.take_left]
  simp [List.append_assoc]

theorem drop16_four_u32 (a b c d : Nat) (R : List Nat) :
    (u32le a ++ (u32le b ++ (u32le c ++ (u32le d ++ R)))).drop 16 = R := by
  have h : (u32le a ++ (u32le b ++ (u32le c ++ (u32le d ++ R)))) =
      (u32le a ++ u32le b ++ u32le c ++ u32le d) ++ R := by
    simp [List.append_assoc]
  rw [h]
  have hl : (u32le a ++ u32le b ++ u32le c ++ u32le d).length = 16 := by
    simp [u32le]
  rw [show (16 : Nat) = (u32le a ++ u32le b ++ u32le c ++ u32le d).length
    from hl.symm, List.drop_left]

/-- The key bytes of a well-formed serialized KVP record. -/
theorem keyBytes_of_good (r : SerOut) (fid : Nat) (k b : List Nat)
    (lio : Nat) (hbuf : r.buf = kvpBlockBytes fid k b lio)
    (hhdr : r.hdr = kvpHeaderSizeU8) (hkey : r.key = k.length) :
    r.keyBytes = k := by
  rw [SerOut.keyBytes, hbuf, hhdr, hkey, kvpBlockBytes_shape]
  rw [show kvpHeaderSizeU8 = 16 from rfl, drop16_four_u32]
  rw [List.take_left]

theorem dsh_kvp_full (fid : Nat) (k b : List Nat) (lio : Nat) (T : List Nat)
    (hsmall : kvpHeaderSizeU8 + k.length + b.length + 4 < 4294967296) :
    deserializeHeader ((kvpBlockBytes fid k b lio ++ T).take 16) fid false =
      .ok (some (.kvp (kvpHeaderSizeU8 + k.length + b.length + 4) k.length
        (b.length : Int))) := by
  have hBlen := kvpBlockBytes_length' fid k b lio
  have hlen : ((kvpBlockBytes fid k b lio ++ T).take 16).length = 16 := by
    simp only [List.length_take, List.length_append, hBlen]
    simp [kvpHeaderSizeU8]
    omega
  obtain ⟨hw0, hw1, hw2, hw3⟩ := kvpBlockBytes_words fid k b lio T
  have h1 : readU32At ((kvpBlockBytes fid k b lio ++ T).take 16) 1 =
      (aokvMagicKVP + fid) % 4294967296 := by
    rw [readU32At_take _ _ _ (by omega), hw1]
  have h2 : readU32At ((kvpBlockBytes fid k b lio ++ T).take 16) 2 =
      (kvpHeaderSizeU8 + k.length + b.length + 4) % 4294967296 := by
    rw [readU32At_take _ _ _ (by omega), hw2]
  have h3 : readU32At ((kvpBlockBytes fid k b lio ++ T).take 16) 3 =
      k.length % 4294967296 := by
    rw [readU32At_take _ _ _ (by omega), hw3]
  rw [deserializeHeader]
  rw [if_neg (by rw [hlen]; norm_num)]
  rw [if_neg (by simp)]
  simp only [h1, h2, h3, i32_mod]
  rw [if_pos trivial]
  rw [if_neg (by rw [hlen]; norm_num)]
  rw [Nat.mod_eq_of_lt hsmall,
    Nat.mod_eq_of_lt (by omega : k.length < 4294967296)]
  simp only [Except.ok.injEq, Option.some.injEq, HeaderInfo.kvp.injEq]
  refine ⟨trivial, trivial, ?_⟩
  simp only [kvpHeaderSizeU8]
  push_cast
  omega

theorem dsh_kvp_part (fid : Nat) (k b : List Nat) (lio : Nat) (T : List Nat)
    (t : Nat) (ht : 12 ≤ t) (ht16 : t < 16) :
    deserializeHeader ((kvpBlockBytes fid k b lio ++ T).take t) fid false =
      .ok none := by
  have hBlen := kvpBlockBytes_length' fid k b lio
  have hlen : ((kvpBlockBytes fid k b lio ++ T).take t).length = t := by
    simp only [List.length_take, List.length_append, hBlen]
    simp [kvpHeaderSizeU8]
    omega
  obtain ⟨hw0, hw1, hw2, hw3⟩ := kvpBlockBytes_words fid k b lio T
  have h1 : readU32At ((kvpBlockBytes fid k b lio ++ T).take t) 1 =
      (aokvMagicKVP + fid) % 4294967296 := by
    rw [readU32At_take _ _ _ (by omega), hw1]
  rw [deserializeHeader]
  rw [if_neg (by rw [hlen]; omega)]
  rw [if_neg (by simp)]
  simp only [h1, i32_mod]
  rw [if_pos trivial]
  rw [if_pos (by rw [hlen]; omega)]
  rw [if_neg (by simp)]

theorem dsh_idx_part (fid : Nat) (content T : List Nat) (t : Nat)
    (ht : 12 ≤ t) (ht16 : t ≤ 16)
    (hsmall : magicHeaderSizeU8 + content.length + 4 < 4294967296) :
    deserializeHeader ((idxBlockBytes fid content ++ T).take t) fid false =
      .ok (some (.idx (magicHeaderSizeU8 + content.length + 4)
        (content.length : Int))) := by
  have hBlen := idxBlockBytes_length fid content
  have hlen : ((idxBlockBytes fid content ++ T).take t).length = t := by
    simp only [List.length_take, List.length_append, hBlen]
    simp [magicHeaderSizeU8]
    omega
  obtain ⟨hw0, hw1, hw2⟩ := idxBlockBytes_words fid content T
  have h1 : readU32At ((idxBlockBytes fid content ++ T).take t) 1 =
      (aokvMagicIndex + fid) % 4294967296 := by
    rw [readU32At_take _ _ _ (by omega), hw1]
  have h2 : readU32At ((idxBlockBytes fid content ++ T).take t) 2 =
      (magicHeaderSizeU8 + content.length + 4) % 4294967296 := by
    rw [readU32At_take _ _ _ (by omega), hw2]
  rw [deserializeHeader]
  rw [if_neg (by rw [hlen]; omega)]
  rw [if_neg (by simp)]
  simp only [h1, h2, i32_mod]
  rw [if_neg (by
    rw [i32_eq_iff]
    unfold aokvMagicIndex aokvMagicKVP
    omega)]
  rw [if_pos trivial]
  rw [Nat.mod_eq_of_lt hsmall]
  simp only [Except.ok.injEq, Option.some.injEq, HeaderInfo.idx.injEq]
  refine ⟨trivial, ?_⟩
  simp only [magicHeaderSizeU8]
  push_cast
  omega

theorem outLen_append (l₁ l₂ : List OutBlock) :
    outLen (l₁ ++ l₂) = outLen l₁ + outLen l₂ := by
  simp [outLen]

theorem outLen_singleton (b : OutBlock) : outLen [b] = b.bytes.length := by
  simp [outLen]

theorem blockStarts_append (l₁ l₂ : List OutBlock) :
    blockStarts (l₁ ++ l₂) =
      blockStarts l₁ ++
        (blockStarts l₂).map (fun e => (e.1 + outLen l₁, e.2)) := by
  induction l₁ with
  | nil =>
    simp [blockStarts, outLen]
  | cons b rest ih =>
    show (0, b) :: (blockStarts (rest ++ l₂)).map
        (fun e => (e.1 + b.bytes.length, e.2)) = _
    rw [ih]
    simp only [List.map_append, List.map_map, List.cons_append, blockStarts]
    congr 1
    congr 1
    apply List.map_congr_left
    intro e _
    show (e.1 + outLen rest + b.bytes.length, e.2) =
      (e.1 + outLen (b :: rest), e.2)
    have h : outLen (b :: rest) = b.bytes.length + outLen rest := by
      simp [outLen]
    rw [h]
    congr 1
    omega

theorem blockStarts_snoc (l : List OutBlock) (b : OutBlock) :
    blockStarts (l ++ [b]) = blockStarts l ++ [(outLen l, b)] := by
  rw [blockStarts_append]
  simp [blockStarts]

theorem blockStarts_pos_le (l : List OutBlock) :
    ∀ pb ∈ blockStarts l, pb.1 + pb.2.bytes.length ≤ outLen l := by
  induction l with
  | nil => intro pb hpb; simp [blockStarts] at hpb
  | cons b rest ih =>
    intro pb hpb
    simp only [blockStarts, List.mem_cons, List.mem_map] at hpb
    rcases hpb with rfl | ⟨e, he, rfl⟩
    · simp only [outLen, List.map_cons, List.sum_cons]
      omega
    · have h2 := ih e he
      simp only [outLen, List.map_cons, List.sum_cons] at h2 ⊢
      omega

/-- The footer of a block at absolute position `pos` is the 32-bit store of
a positive raw value at most `pos + blockLen - 3` (one past the footer's
own start, accounting for the writer's `_lastIndex = 1` initialisation). -/
def FooterOk (pos : Nat) (b : OutBlock) : Prop :=
  ∃ f, b.bytes.drop (b.bytes.length - 4) = u32le f ∧ 0 < f ∧
    f + 3 ≤ pos + b.bytes.length

/-- The writer invariant used for the back-pointer claim: the pushed bytes
account for `_size`, `_lastIndex` lies in `[1, _size + 1]`, and every
pushed block has an in-range footer. -/
def WInv (s : WState) : Prop :=
  outLen s.out = s.size ∧ 1 ≤ s.lastIndex ∧ s.lastIndex ≤ s.size + 1 ∧
    ∀ pb ∈ blockStarts s.out, FooterOk pb.1 pb.2

theorem WInv_init (fid : Nat) : WInv (initW fid) := by
  refine ⟨rfl, le_refl _, by simp [initW], ?_⟩
  intro pb hpb
  simp [initW, blockStarts] at hpb

theorem WInv_kvpStep {s : WState} (h : WInv s) (k : List Nat) (v : AV)
    (c : Option (List Nat → List Nat)) : WInv (kvpStep s k v c) := by
  obtain ⟨hout, h1, h2, hblocks⟩ := h
  have hlen := serialize_buf_length k v s.lastIndex s.fileId c
  refine ⟨?_, ?_, ?_, ?_⟩
  · show outLen (s.out ++ [_]) = s.size + _
    rw [outLen_append, hout, outLen_singleton]
    rfl
  · simp only [kvpStep]
    omega
  · simp only [kvpStep]
    omega
  · simp only [kvpStep]
    rw [blockStarts_snoc]
    intro pb hpb
    rcases List.mem_append.mp hpb with hmem | hmem
    · exact hblocks pb hmem
    · have hpb' : pb = (outLen s.out, OutBlock.kvpB
          (serialize k v s.lastIndex s.fileId c)) := by
        simpa using hmem
      subst hpb'
      refine ⟨s.lastIndex + kvpHeaderSizeU8 + k.length +
        (compressBody (plainBody v) c).length, ?_, ?_, ?_⟩
      · exact serialize_footer k v s.lastIndex s.fileId c
      · omega
      · simp only [OutBlock.bytes, hlen, hout, kvpHeaderSizeU8]
        omega

theorem WInv_writeIndex {s : WState} (h : WInv s)
    (wc : Option (List Nat → List Nat)) : WInv (_writeIndex wc s) := by
  obtain ⟨hout, h1, h2, hblocks⟩ := h
  have hlen := serializeIndex_length s.index s.fileId wc
  refine ⟨?_, ?_, ?_, ?_⟩
  · show outLen (s.out ++ [_]) = s.size + _
    rw [outLen_append, hout, outLen_singleton]
    rfl
  · simp only [_writeIndex]
    omega
  · simp only [_writeIndex]
    omega
  · simp only [_writeIndex]
    rw [blockStarts_snoc]
    intro pb hpb
    rcases List.mem_append.mp hpb with hmem | hmem
    · exact hblocks pb hmem
    · have hpb' : pb = (outLen s.out, OutBlock.idxB
          (serializeIndex s.index s.fileId wc)) := by
        simpa using hmem
      subst hpb'
      refine ⟨magicHeaderSizeU8 + (idxContent s.index wc).length, ?_, ?_, ?_⟩
      · exact serializeIndex_footer s.index s.fileId wc
      · simp [magicHeaderSizeU8]
      · simp only [OutBlock.bytes, hlen, magicHeaderSizeU8]
        omega

theorem WInv_maybeWriteIndex {s : WState} (h : WInv s)
    (wc : Option (List Nat → List Nat)) : WInv (_maybeWriteIndex wc s) := by
  unfold _maybeWriteIndex
  split
  · exact WInv_writeIndex h wc
  · exact h

theorem WInv_wStep {s : WState} (h : WInv s)
    (wc : Option (List Nat → List Nat)) (op : WOp) :
    WInv (wStep wc s op) := by
  cases op with
  | set k v => exact WInv_maybeWriteIndex (WInv_kvpStep h k v wc) wc
  | setU k v => exact WInv_maybeWriteIndex (WInv_kvpStep h k v none) wc
  | del k => exact WInv_maybeWriteIndex (WInv_kvpStep h k _ wc) wc

theorem WInv_wRun (wc : Option (List Nat → List Nat)) (fid : Nat)
    (ops : List WOp) : WInv (wRun wc fid ops) := by
  rw [wRun]
  induction ops using List.reverseRecOn with
  | nil => exact WInv_init fid
  | append_singleton l op ih =>
    rw [List.foldl_append]
    exact WInv_wStep ih wc op

theorem WInv_wRunEnd (wc : Option (List Nat → List Nat)) (fid : Nat)
    (ops : List WOp) : WInv (wRunEnd wc fid ops) :=
  WInv_writeIndex (WInv_wRun wc fid ops) wc

/-! ## Claim C1 -/

/-- C1 (code_bug evaluation).  Claim C1 states that for every sequence S of
`setItem`/`removeItem` calls followed by `end()`, feeding the complete
stream into a reader and calling `index()` succeeds and reproduces the
final map.  On the complete 70-byte file for S = `setItem("k", null)` (no
compression, fileId 0), `index()` instead throws: the tail walk locates the
final Index block at offset 41 but reads `BLOCK_SIZE - 12` content bytes —
the JSON content *plus* the 4-byte footer — and `JSON.parse` rejects the
trailing footer bytes. -/
theorem C1_roundTripIndexThrows :
    fileA.length = 70 ∧
    countIdx (wRunEnd none 0 opsA) = 1 ∧
    (readerTailWalk fileA 0 none).indexStart = some 41 ∧
    readerIndex fileA 0 none =
      .error "SyntaxError: Unexpected token in JSON" :=
  ⟨rfl, rfl, rfl, rfl⟩

/-! ## Claim C3 -/

/-- C3 (code_bug evaluation).  Claim C3 states the tail walk reads exactly
`BLOCK_SIZE - 16` content bytes starting at `candidate + 12` and resumes
the forward scan at `candidate + BLOCK_SIZE`.  On the complete file for
S = `setItem("k", null)` the accepted candidate is 41 with
`BLOCK_SIZE = 29`, and the code instead reads `29 - 12 = 17` bytes at
`candidate + 12 = 53` (the content plus the footer) and sets the resume
offset to `candidate + BLOCK_SIZE + 4 = 74`; the subsequent `JSON.parse`
of those 17 bytes then throws. -/
theorem C3_tailWalkGeometry :
    (readerTailWalk fileA 0 none).indexStart = some 41 ∧
    readU32At (fileA.drop 41) 2 = 29 ∧
    (readerTailWalk fileA 0 none).contentRead = some (29 - 12, 41 + 12) ∧
    (readerTailWalk fileA 0 none).offset = 41 + 29 + 4 ∧
    (readerTailWalk fileA 0 none).result =
      .error "SyntaxError: Unexpected token in JSON" ∧
    (29 - 12 : Nat) ≠ 29 - 16 :=
  ⟨rfl, rfl, rfl, rfl, rfl, by decide⟩

/-! ## Claim C4 -/

/-- C4 (counterexample).  Claim C4 states every Index block's footer equals
its `BLOCK_SIZE`.  For the index map `{"k": [20, 17]}` (no compression)
the emitted block has `BLOCK_SIZE = 29` but footer word 25
(`= BLOCK_SIZE - 4`). -/
theorem C4_counterexample :
    readU32 ((serializeIndex idxOne 0 none).drop
        ((serializeIndex idxOne 0 none).length - 4)) = 25 ∧
    readU32At (serializeIndex idxOne 0 none) 2 = 29 ∧
    (25 : Nat) ≠ 29 :=
  ⟨rfl, rfl, by decide⟩

/-- C4 (amended).  For every Index block the writer emits — any index map
and any compression configuration — the 4-byte footer word is
`12 + |content| = BLOCK_SIZE - 4` (the distance from the footer's own
start back to the block start), not `BLOCK_SIZE`; equivalently, footer + 4
equals the stored `BLOCK_SIZE` field modulo 2^32. -/
theorem C4_indexFooter (i : List (List Nat × Nat × Nat)) (fid : Nat)
    (c : Option (List Nat → List Nat)) :
    (serializeIndex i fid c).drop ((serializeIndex i fid c).length - 4) =
      u32le (magicHeaderSizeU8 + (idxContent i c).length) ∧
    (readU32 ((serializeIndex i fid c).drop
        ((serializeIndex i fid c).length - 4)) + 4) % 4294967296 =
      readU32At (serializeIndex i fid c) 2 := by
  refine ⟨serializeIndex_footer i fid c, ?_⟩
  rw [serializeIndex_footer i fid c, readU32_u32le, serializeIndex_blockSz]
  conv_lhs => rw [Nat.add_mod, Nat.mod_mod_of_dvd _ (by norm_num),
    ← Nat.add_mod]

/-! ## Claim C7 -/

/-- C7 (counterexample).  Claim C7 states that a configured decompressor is
applied exactly when the body has length at least 5 and byte 4 is not
`0x7B`, and that shorter bodies are decoded as-is.  The 3-byte stored body
`[1, 2, 3]` satisfies the code's probe (`length < 4`), fails the claim's
condition, and is in fact decompressed: with a decompressor returning the
serialization of `null`, `deserializeKVP` returns that value, whereas
decoding `[1, 2, 3]` as-is raises a `RangeError`. -/
theorem C7_counterexample :
    kvpLooksCompressed [1, 2, 3] ∧
    ¬ specC7Cond [1, 2, 3] ∧
    deserializeKVP [1, 2, 3] (some (fun _ => plainBody (.json .jnull))) =
      .ok (.json .jnull) ∧
    deserializeKVP [1, 2, 3] none =
      .error "RangeError: invalid typed array length" :=
  ⟨by decide, by decide, rfl, rfl⟩

/-- C7 (amended).  A stored body is decompressed exactly when a
decompressor is configured and the probe `body.length < 4 ||
body[4] !== 0x7b` fires; since a JS read past the end yields `undefined`,
that probe is equivalent to "length below 5, or byte 4 differs from
`0x7B`".  In particular every body shorter than 5 bytes is decompressed,
not decoded as-is. -/
theorem C7_decompressCondition (body : List Nat)
    (f : List Nat → List Nat) :
    (deserializeKVP body (some f) =
      deserializeKVP (if kvpLooksCompressed body then f body else body)
        none) ∧
    (kvpLooksCompressed body ↔
      body.length < 5 ∨ body.get? 4 ≠ some 0x7b) := by
  constructor
  · by_cases h : kvpLooksCompressed body <;>
      simp [deserializeKVP, h]
  · unfold kvpLooksCompressed
    constructor
    · rintro (h | h)
      · exact Or.inl (by omega)
      · exact Or.inr h
    · rintro (h | h)
      · rcases Nat.lt_or_ge body.length 4 with h4 | h4
        · exact Or.inl h4
        · refine Or.inr ?_
          have : body.length = 4 := by omega
          have hnone : body.get? 4 = none := by
            rw [List.get?_eq_none]
            omega
          simp only [List.get?_eq_getElem?] at hnone ⊢
          simp [hnone]
      · exact Or.inr h

/-! ## Claim C10 -/

/-- C10 (confirmed).  On a writer with a configured compressor `f`,
`setItemUncompressed` is `_setItemC` with no per-call compressor, so its
KVP step — block bytes, index-map update, size/cadence accounting and
chunk push — is the very `kvpStep` that `setItem` performs on a writer
with no compressor (the subsequent snapshot check still uses the writer's
own compressor, exactly as `setItem`'s does), and the emitted body is the
plain uncompressed serialization. -/
theorem C10_setItemUncompressed (wcompress : Option (List Nat → List Nat))
    (s : WState) (k : List Nat) (v : AV) (f : List Nat → List Nat) :
    setItemUncompressed wcompress s k v = _setItemC wcompress s k v none ∧
    setItem wcompress s k v = _setItemC wcompress s k v wcompress ∧
    setItemUncompressed (some f) s k v =
      _maybeWriteIndex (some f) (kvpStep s k v none) ∧
    setItem none s k v = _maybeWriteIndex none (kvpStep s k v none) ∧
    (kvpStep s k v none).out =
      s.out ++ [.kvpB (serialize k v s.lastIndex s.fileId none)] ∧
    (serialize k v s.lastIndex s.fileId none).buf =
      kvpBlockBytes s.fileId k (plainBody v) s.lastIndex :=
  ⟨rfl, rfl, rfl, rfl, rfl, rfl⟩

/-! ## Claim C9 -/

/-- C9 (counterexample).  Claim C9 states every block footer satisfies
`0 < BACK_DISTANCE ≤ p` (`p` the footer's absolute offset), in particular
for the first KVP block.  For S = `setItem("k", null)` the first block's
footer sits at offset 37 and holds 38 (`_lastIndex` starts at 1), pointing
one byte *before* the file start. -/
theorem C9_counterexample :
    (wBytes (wRun none 0 opsA)).length = 41 ∧
    readU32 ((wBytes (wRun none 0 opsA)).drop 37) = 38 ∧
    ¬ (38 ≤ 37) :=
  ⟨rfl, rfl, by decide⟩

/-- C9 (amended).  For every operation sequence, writer compressor and
fileId, provided the total output stays below 2^32 bytes, every emitted
block's footer word `f` satisfies `0 < f` and `f + 3 ≤ pos + len` — that
is, `BACK_DISTANCE ≤ p + 1` where `p = pos + len - 4` is the footer's
absolute offset.  The slack of one byte is real: blocks written before the
first Index block point one byte before the file start (`_lastIndex`
starts at 1), while blocks after an Index block point exactly at it. -/
theorem C9_backPointerBound (wc : Option (List Nat → List Nat)) (fid : Nat)
    (ops : List WOp) (hsz : (wRunEnd wc fid ops).size < 4294967296) :
    ∀ pb ∈ blockStarts (wRunEnd wc fid ops).out,
      0 < pb.2.footerVal ∧ pb.2.footerVal + 3 ≤ pb.1 + pb.2.bytes.length := by
  intro pb hpb
  obtain ⟨hout, _, _, hblocks⟩ := WInv_wRunEnd wc fid ops
  obtain ⟨f, hdrop, hfpos, hfle⟩ := hblocks pb hpb
  have hle := blockStarts_pos_le _ pb hpb
  have hflt : f < 4294967296 := by
    rw [hout] at hle
    omega
  have hval : pb.2.footerVal = f := by
    rw [OutBlock.footerVal, hdrop, readU32_u32le, Nat.mod_eq_of_lt hflt]
  rw [hval]
  exact ⟨hfpos, hfle⟩

/-- Witness for C9 (amended): instantiating at S = `setItem("k", null)`
plus `end()` and the file's first block. -/
theorem C9_backPointerBound_witness :
    (wRunEnd none 0 opsA).size < 4294967296 ∧
    (0 < (OutBlock.kvpB (serialize [107] (.json .jnull) 1 0 none)).footerVal ∧
     (OutBlock.kvpB (serialize [107] (.json .jnull) 1 0 none)).footerVal + 3 ≤
       0 + (OutBlock.kvpB (serialize [107] (.json .jnull) 1 0 none)).bytes.length) :=
  ⟨by decide,
   C9_backPointerBound none 0 opsA (by decide)
     (0, OutBlock.kvpB (serialize [107] (.json .jnull) 1 0 none))
     (by decide)⟩

/-! ## Claim C5 -/

/-- C5 (code_bug evaluation).  Claim C5 states typed-array round trips
preserve element type, element length and contents.  Writing the
`Int16Array` with single element 258 (window bytes `[2, 1]`) and reading
it back through `index()`/`getItem()` yields `new Int16Array(post)` where
`post` is a `Uint8Array` — the TypedArray constructor converts
*element-wise*, producing 2 elements `[2, 1]` instead of the 1 element
`[258]`; and a `DataView` value cannot be decoded at all
(`new DataView(post)` throws a `TypeError`). -/
theorem C5_typedArrayRoundTrip :
    (readerIndex fileT 0 none).map
        (fun x => getItem fileT none x.map [107]) =
      .ok (.ok (some (.typedElems .int16 [2, 1]))) ∧
    taWindowElemCount .int16 [2, 1] = 1 ∧
    (DV.typedElems .int16 [2, 1]).typedLength = some 2 ∧
    int16WindowElems [2, 1] = [258] ∧
    int16WindowElems [2, 1] ≠ [(2 : Int), 1] ∧
    deserializeKVP (plainBody (.typed .dataView [5])) none =
      .error "TypeError: DataView constructor requires an ArrayBuffer" :=
  ⟨rfl, rfl, rfl, rfl, by decide, rfl⟩

/-! ## Claim C6 -/

/-- C6 (code_bug evaluation).  Claim C6 states that decoding a `t=2` body
returns exactly the post bytes, so an `ArrayBuffer` round-trips, including
the empty one.  Writing the 3-byte buffer `[1, 2, 3]` and reading it back
returns `post.buffer` — the *entire* 14-byte body (descriptor-size word
and descriptor included); and the empty `ArrayBuffer` cannot be decoded at
all, because its body ends right after the descriptor, `post` is
`undefined`, and `post!.buffer` throws a `TypeError`. -/
theorem C6_rawBytesDecode :
    (readerIndex fileR 0 none).map
        (fun x => getItem fileR none x.map [107]) =
      .ok (.ok (some (.buffer
        [7, 0, 0, 0, 123, 34, 116, 34, 58, 50, 125, 1, 2, 3]))) ∧
    ([7, 0, 0, 0, 123, 34, 116, 34, 58, 50, 125, 1, 2, 3] : List Nat).length
      = 14 ∧
    ([7, 0, 0, 0, 123, 34, 116, 34, 58, 50, 125, 1, 2, 3] : List Nat) ≠
      [1, 2, 3] ∧
    deserializeKVP (plainBody (.buf [])) none =
      .error "TypeError: cannot read buffer of undefined" :=
  ⟨rfl, rfl, by decide, rfl⟩

/-! ## Claim C2 (counterexample) -/

/-- C2 (counterexample).  Claim C2 states that over any prefix P,
`getItem(k)` returns the value of the most recent completed `set(k, ·)`
whose full block fits within P.  For S = `set("a", 1); set("a", 2)` and
the 60-byte prefix of the complete output (all of block 1, but only the
header, key and 5 body bytes of block 2), the most recent fully-fitting
write is `set("a", 1)` — recoverable from the 38-byte prefix — yet the
reader indexes the *truncated* second write (the scan records a KVP once
its header and key are readable) and `getItem("a")` returns `null`. -/
theorem C2_counterexample :
    specC2Value none 0 opsB 60 [97] = some (.json (.jint 1)) ∧
    (readerIndex prefB 0 none).map
        (fun x => getItem prefB none x.map [97]) = .ok (.ok none) ∧
    (readerIndex (fileB.take 38) 0 none).map
        (fun x => getItem (fileB.take 38) none x.map [97]) =
      .ok (.ok (some (.json (.jint 1)))) :=
  ⟨rfl, rfl, rfl⟩

/-! ## Claim C8 -/

theorem serializeW_buf_length (w : List Nat) :
    (serialize [97] (.buf w) 1 0 none).buf.length = 32 + w.length := by
  rw [serialize_buf_length, compressBody_none, plainBody_length]
  have h1 : (jsonBytes (descOf (AV.buf w))).length = 7 := rfl
  have h2 : postOf (AV.buf w) = w := rfl
  rw [h1, h2]
  simp only [List.length_cons, List.length_nil]
  omega

theorem serializeW_body (w : List Nat) :
    (serialize [97] (.buf w) 1 0 none).body = 11 + w.length := by
  show (compressBody (plainBody (.buf w)) none).length = 11 + w.length
  rw [compressBody_none, plainBody_length]
  have h1 : (jsonBytes (descOf (AV.buf w))).length = 7 := rfl
  have h2 : postOf (AV.buf w) = w := rfl
  rw [h1, h2]

theorem serializeW_hdr (w : List Nat) :
    (serialize [97] (.buf w) 1 0 none).hdr = 16 := rfl

theorem serializeW_key (w : List Nat) :
    (serialize [97] (.buf w) 1 0 none).key = 1 := rfl

theorem serializeSmall_buf_length :
    (serialize [98] (.json .jnull) 32 0 none).buf.length = 41 := rfl

theorem serializeSmall_body :
    (serialize [98] (.json .jnull) 32 0 none).body = 20 := rfl

theorem serializeSmall_hdr :
    (serialize [98] (.json .jnull) 32 0 none).hdr = 16 := rfl

theorem serializeSmall_key :
    (serialize [98] (.json .jnull) 32 0 none).key = 1 := rfl

theorem idxBig_length :
    (serializeIndex [([97], 65547, 17)] 0 none).length = 32 := rfl

theorem wRun_bigW (w : List Nat) (hw : w.length = 65536) :
    wRun none 0 [.set [97] (.buf w)] = sBigW w := by
  show _maybeWriteIndex none (kvpStep (initW 0) [97] (.buf w) none) = sBigW w
  have hk : kvpStep (initW 0) [97] (.buf w) none =
      { fileId := 0, size := 65568, index := [([97], 65547, 17)],
        lastIndex := 65569, kvpSize := 65568, indexSize := 0,
        out := [.kvpB (serialize [97] (.buf w) 1 0 none)] } := by
    rw [kvpStep]
    simp only [initW, serializeW_buf_length, serializeW_body,
      serializeW_hdr, serializeW_key, hw, WState.mk.injEq]
    norm_num [jsUpdate]
  rw [hk, _maybeWriteIndex]
  rw [if_pos (by norm_num)]
  rw [_writeIndex]
  simp only [sBigW, idxBig_length, WState.mk.injEq]
  norm_num

theorem kvpStep_bigW (w : List Nat) :
    kvpStep (sBigW w) [98] (.json .jnull) none = sBigChkW w := by
  rw [kvpStep]
  simp only [sBigW, sBigChkW, serializeSmall_buf_length, serializeSmall_body,
    serializeSmall_hdr, serializeSmall_key, WState.mk.injEq]
  norm_num [jsUpdate]

theorem wRun_opsBigW (w : List Nat) (hw : w.length = 65536) :
    wRun none 0 [.set [97] (.buf w), .set [98] (.json .jnull)] =
      _writeIndex none (sBigChkW w) := by
  have h1 : wStep none (initW 0) (.set [97] (.buf w)) = sBigW w := by
    have h := wRun_bigW w hw
    rw [wRun, List.foldl_cons, List.foldl_nil] at h
    exact h
  rw [wRun, List.foldl_cons, List.foldl_cons, List.foldl_nil, h1]
  simp only [wStep, setItem, _setItemC]
  rw [kvpStep_bigW w, _maybeWriteIndex]
  rw [if_pos (by norm_num [sBigChkW])]

theorem countIdx_bigChkW (w : List Nat) :
    countIdx (_writeIndex none (sBigChkW w)) = 2 := by
  rw [_writeIndex]
  simp [sBigChkW, countIdx, OutBlock.isIdx]

theorem kvpBytesAfterLastIdx_bigChkW (w : List Nat) :
    kvpBytesAfterLastIdx (sBigChkW w).out = 41 := by
  rw [kvpBytesAfterLastIdx, afterLastIdx]
  simp only [sBigChkW]
  simp [OutBlock.isIdx, OutBlock.bytes, outLen, serializeSmall_buf_length]

theorem distSinceLastIdxStart_bigChkW (w : List Nat) (hw : w.length = 65536) :
    distSinceLastIdxStart (sBigChkW w).out = 73 := by
  rw [distSinceLastIdxStart, lastIdxStart]
  simp only [sBigChkW, blockStarts, List.map_cons, List.map_nil]
  simp [OutBlock.isIdx, OutBlock.bytes, outLen, serializeW_buf_length,
    serializeSmall_buf_length, idxBig_length, List.getLast?, hw]

/-- C8 (counterexample).  Claim C8 states an Index block follows a set iff
the distance since the last Index is at least 2^30, or the KVP bytes
*since the most recent Index block* are at least 2^16 and at least 64
times the Index bytes so far.  After the 64 KiB write of `opsBig` (which
snapshots, leaving a 32-byte Index), the second, 41-byte write leaves only
41 KVP bytes since the last Index — far below 2^16, and the running
distance since that Index block's start is 73 — yet the writer emits a
second Index block, because its `_kvpSize` counter is cumulative (65609)
and is never reset at a snapshot. -/
theorem C8_counterexample :
    countIdx (wRun none 0 opsBig) = 2 ∧
    wRun none 0 opsBig = _writeIndex none sBigChk ∧
    kvpBytesAfterLastIdx sBigChk.out = 41 ∧
    distSinceLastIdxStart sBigChk.out = 73 ∧
    sBigChk.indexSize = 32 ∧
    sBigChk.kvpSize = 65609 ∧
    ¬ specC8ShouldSnapshot 73 41 32 := by
  have hw : (List.replicate 65536 0).length = 65536 :=
    List.length_replicate 65536 0
  have hrun : wRun none 0 opsBig = _writeIndex none sBigChk :=
    wRun_opsBigW (List.replicate 65536 0) hw
  refine ⟨?_, hrun, kvpBytesAfterLastIdx_bigChkW _,
    distSinceLastIdxStart_bigChkW _ hw, rfl, rfl, by decide⟩
  rw [hrun]
  exact countIdx_bigChkW _

/-- C8 (amended).  After each `setItem`/`removeItem` KVP push the writer
snapshots iff `_lastIndex ≥ 2^30`, or the *cumulative* total of all KVP
bytes ever written is at least 2^16 and at least 64 times the total Index
bytes; `_kvpSize` accumulates across snapshots and `_writeIndex` never
resets it, and `end()` always writes a final Index block. -/
theorem C8_snapshotCadence (wcompress compress : Option (List Nat → List Nat))
    (s : WState) (k : List Nat) (v : AV) :
    _setItemC wcompress s k v compress =
      (if (kvpStep s k v compress).lastIndex ≥ 2 ^ 30 ∨
          ((kvpStep s k v compress).kvpSize ≥ 2 ^ 16 ∧
           (kvpStep s k v compress).kvpSize ≥
             (kvpStep s k v compress).indexSize * 64)
       then _writeIndex wcompress (kvpStep s k v compress)
       else kvpStep s k v compress) ∧
    (kvpStep s k v compress).kvpSize =
      s.kvpSize + (serialize k v s.lastIndex s.fileId compress).buf.length ∧
    (kvpStep s k v compress).indexSize = s.indexSize ∧
    (_writeIndex wcompress s).kvpSize = s.kvpSize ∧
    wEnd wcompress s = _writeIndex wcompress s := by
  refine ⟨?_, rfl, rfl, rfl, rfl⟩
  rw [_setItemC, _maybeWriteIndex]
  norm_num



theorem drop_eq_nil_len {P : List Nat} {o : Nat} (h : P.drop o = []) :
    P.length ≤ o := by
  have := congrArg List.length h
  simp at this
  omega

theorem forwardScan_blocks (fid : Nat) (P : List Nat) :
    ∀ (bs : List OutBlock) (fuel o n' : Nat)
      (m : List (List Nat × Int × Int)),
    P.drop o = (bytesOf bs).take n' →
    n' = P.length - o →
    o ≤ P.length →
    n' ≤ (bytesOf bs).length →
    n' + 2 ≤ fuel →
    (∀ x ∈ bs, GoodBlock fid x) →
    (∀ x ∈ bs, x.bytes.length < 4294967296) →
    forwardScan P fid false fuel m o = .ok (scanFoldM m o n' bs) := by
  intro bs
  induction bs with
  | nil =>
    intro fuel o n' m hdrop hn' ho hnle hfuel hgood hlen
    have hn0 : n' = 0 := by
      simp [bytesOf] at hnle
      omega
    subst hn0
    obtain ⟨f, rfl⟩ : ∃ f, fuel = f + 1 := ⟨fuel - 1, by omega⟩
    have ho' : P.length ≤ o := by
      rw [bytesOf_nil, List.take_nil] at hdrop
      exact drop_eq_nil_len hdrop
    have hpread : pread P maxHeaderSizeU8 (o : Int) = none :=
      (pread_none_iff _ _ _).mpr (by exact_mod_cast ho')
    rw [forwardScan, hpread]
    rfl
  | cons b rest ih =>
    intro fuel o n' m hdrop hn' ho hnle hfuel hgood hlen
    obtain ⟨f, rfl⟩ : ∃ f, fuel = f + 1 := ⟨fuel - 1, by omega⟩
    have hgb := hgood b (List.mem_cons_self b rest)
    have hlb := hlen b (List.mem_cons_self b rest)
    have hgoodr : ∀ x ∈ rest, GoodBlock fid x :=
      fun x hx => hgood x (List.mem_cons_of_mem _ hx)
    have hlenr : ∀ x ∈ rest, x.bytes.length < 4294967296 :=
      fun x hx => hlen x (List.mem_cons_of_mem _ hx)
    rw [bytesOf_cons] at hdrop hnle
    cases b with
    | kvpB r =>
      obtain ⟨k, bod, lio, hbuf, hhdr, hkey, hbody, hfoot⟩ := hgb
      have hbytes : (OutBlock.kvpB r).bytes = kvpBlockBytes fid k bod lio :=
        hbuf
      have hBlen := kvpBlockBytes_length' fid k bod lio
      rw [hbytes] at hdrop hlb hnle
      have hsmall : kvpHeaderSizeU8 + k.length + bod.length + 4 <
          4294967296 := by
        rw [hBlen] at hlb
        exact hlb
      by_cases hfull : (kvpBlockBytes fid k bod lio).length ≤ n'
      · -- the block lies fully within the window
        have h20 : 20 ≤ n' := by
          rw [hBlen] at hfull
          simp only [kvpHeaderSizeU8] at hfull
          omega
        have hoP : o < P.length := by omega
        have hpread1 : pread P maxHeaderSizeU8 (o : Int) =
            some ((P.drop o).take 16) := pread_nat P 16 o hoP
        have hhdrB : (P.drop o).take 16 =
            (kvpBlockBytes fid k bod lio ++ bytesOf rest).take 16 := by
          rw [hdrop, List.take_take]
          congr 1
          omega
        have hhlen : ((kvpBlockBytes fid k bod lio ++
            bytesOf rest).take 16).length = 16 := by
          simp only [List.length_take, List.length_append, hBlen]
          simp only [kvpHeaderSizeU8]
          omega
        have hds := dsh_kvp_full fid k bod lio (bytesOf rest) hsmall
        rw [forwardScan, hpread1, hhdrB]
        simp only [hhlen, hds, magicHeaderSizeU8]
        rw [if_neg (by norm_num)]
        have hoff1 : (o : Int) + ((kvpHeaderSizeU8 : Nat) : Int) =
            ((o + 16 : Nat) : Int) := by
          simp only [kvpHeaderSizeU8]
          push_cast
          ring
        rw [hoff1]
        have hoP2 : o + 16 < P.length := by omega
        have hpread2 : pread P k.length ((o + 16 : Nat) : Int) =
            some ((P.drop (o + 16)).take k.length) :=
          pread_nat P k.length (o + 16) hoP2
        have hdrop16 : P.drop (o + 16) =
            (k ++ (bod ++ (u32le (lio + kvpHeaderSizeU8 + k.length +
              bod.length) ++ bytesOf rest))).take (n' - 16) := by
          have h1 : P.drop (o + 16) = (P.drop o).drop 16 := by
            rw [List.drop_drop]
          rw [h1, hdrop, List.drop_take]
          congr 1
          rw [kvpBlockBytes_shape]
          simp only [List.append_assoc]
          exact drop16_four_u32 _ _ _ _ _
        have hkeyB : (P.drop (o + 16)).take k.length = k := by
          rw [hdrop16, List.take_take]
          have hmin : min k.length (n' - 16) = k.length := by
            rw [hBlen] at hfull
            simp only [kvpHeaderSizeU8] at hfull
            omega
          rw [hmin, List.take_left]
        rw [hpread2]
        simp only [hkeyB, lt_self_iff_false, if_false]
        have hoff2 : ((o + 16 : Nat) : Int) + ((k.length : Nat) : Int) +
            ((bod.length : Nat) : Int) + 4 =
            (((o + (kvpBlockBytes fid k bod lio).length : Nat)) : Int) := by
          rw [hBlen]
          simp only [kvpHeaderSizeU8]
          push_cast
          ring
        rw [hoff2]
        have hrec := ih f (o + (kvpBlockBytes fid k bod lio).length)
          (n' - (kvpBlockBytes fid k bod lio).length)
          (jsUpdate m k (((bod.length : Nat) : Int),
            ((o + 16 : Nat) : Int) + ((k.length : Nat) : Int)))
          (by
            have h1 : P.drop (o + (kvpBlockBytes fid k bod lio).length) =
                (P.drop o).drop (kvpBlockBytes fid k bod lio).length := by
              rw [List.drop_drop]
            rw [h1, hdrop, List.drop_take, List.drop_left])
          (by
            rw [hBlen]
            simp only [kvpHeaderSizeU8]
            omega)
          (by
            rw [hBlen] at hfull ⊢
            simp only [kvpHeaderSizeU8] at hfull ⊢
            omega)
          (by
            rw [List.length_append] at hnle
            omega)
          (by
            rw [hBlen]
            simp only [kvpHeaderSizeU8]
            omega)
          hgoodr hlenr
        rw [hrec]
        have hkb : r.keyBytes = k :=
          keyBytes_of_good r fid k bod lio hbuf hhdr hkey
        have hmap : applyFullB m o (OutBlock.kvpB r) =
            jsUpdate m k (((bod.length : Nat) : Int),
              ((o + 16 : Nat) : Int) + ((k.length : Nat) : Int)) := by
          simp only [applyFullB, scanEntry, hkb, hbody, hkey,
            kvpHeaderSizeU8]
          norm_cast
        rw [scanFoldM, hbytes, if_pos hfull, hmap]
      · -- the block is cut by the window
        rw [scanFoldM, hbytes, if_neg hfull]
        have hkb : r.keyBytes = k :=
          keyBytes_of_good r fid k bod lio hbuf hhdr hkey
        by_cases h0 : n' = 0
        · have hpread0 : pread P maxHeaderSizeU8 (o : Int) = none :=
            (pread_none_iff _ _ _).mpr (by exact_mod_cast
              (by omega : P.length ≤ o))
          have hcut : cutApplyB m o n' (OutBlock.kvpB r) = m := by
            simp only [cutApplyB]
            rw [if_neg (by
              rintro ⟨h1, -⟩
              simp only [kvpHeaderSizeU8] at h1
              omega)]
          rw [forwardScan, hpread0, hcut]
        · have hoP : o < P.length := by omega
          have hpread1 : pread P maxHeaderSizeU8 (o : Int) =
              some ((P.drop o).take 16) := pread_nat P 16 o hoP
          rw [List.length_append] at hnle
          by_cases h12 : n' < 12
          · have hmin : min 16 n' = n' := by omega
            have hhdrB' : (P.drop o).take 16 =
                (kvpBlockBytes fid k bod lio ++ bytesOf rest).take n' := by
              rw [hdrop, List.take_take, hmin]
            have hl : ((kvpBlockBytes fid k bod lio ++
                bytesOf rest).take n').length = n' := by
              rw [List.length_take, List.length_append]
              omega
            have hcut : cutApplyB m o n' (OutBlock.kvpB r) = m := by
              simp only [cutApplyB]
              rw [if_neg (by
                rintro ⟨h1, -⟩
                simp only [kvpHeaderSizeU8] at h1
                omega)]
            rw [forwardScan, hpread1]
            simp only [hhdrB']
            rw [if_pos (by
              rw [hl]
              simp only [magicHeaderSizeU8]
              omega), hcut]
          · by_cases h16 : n' < 16
            · -- header partially readable: 12 <= n' < 16
              have hmin : min 16 n' = n' := by omega
              have hhdrB' : (P.drop o).take 16 =
                  (kvpBlockBytes fid k bod lio ++ bytesOf rest).take n' := by
                rw [hdrop, List.take_take, hmin]
              have hl : ((kvpBlockBytes fid k bod lio ++
                  bytesOf rest).take n').length = n' := by
                rw [List.length_take, List.length_append]
                omega
              have hds' := dsh_kvp_part fid k bod lio (bytesOf rest) n'
                (by omega) (by omega)
              have hcut : cutApplyB m o n' (OutBlock.kvpB r) = m := by
                simp only [cutApplyB]
                rw [if_neg (by
                  rintro ⟨h1, -⟩
                  simp only [kvpHeaderSizeU8] at h1
                  omega)]
              rw [forwardScan, hpread1]
              simp only [hhdrB']
              rw [if_neg (by
                rw [hl]
                simp only [magicHeaderSizeU8]
                omega), hds', hcut]
            · -- full 16-byte header readable, block still cut
              have hhdrB : (P.drop o).take 16 =
                  (kvpBlockBytes fid k bod lio ++ bytesOf rest).take 16 := by
                rw [hdrop, List.take_take]
                congr 1
                omega
              have hhlen : ((kvpBlockBytes fid k bod lio ++
                  bytesOf rest).take 16).length = 16 := by
                rw [List.length_take, List.length_append, hBlen]
                simp only [kvpHeaderSizeU8]
                omega
              have hds := dsh_kvp_full fid k bod lio (bytesOf rest) hsmall
              have hoff1 : (o : Int) + ((kvpHeaderSizeU8 : Nat) : Int) =
                  ((o + 16 : Nat) : Int) := by
                simp only [kvpHeaderSizeU8]
                push_cast
                ring
              rw [forwardScan, hpread1, hhdrB]
              simp only [hhlen, hds, magicHeaderSizeU8]
              rw [if_neg (by norm_num)]
              rw [hoff1]
              by_cases h16e : n' = 16
              · -- exactly the header fits: the key pread runs off the end
                have hpread2 : pread P k.length ((o + 16 : Nat) : Int) =
                    none :=
                  (pread_none_iff _ _ _).mpr (by exact_mod_cast
                    (by omega : P.length ≤ o + 16))
                have hcut : cutApplyB m o n' (OutBlock.kvpB r) = m := by
                  simp only [cutApplyB]
                  rw [if_neg (by
                    rintro ⟨h1, -⟩
                    simp only [kvpHeaderSizeU8] at h1
                    omega)]
                rw [hpread2, hcut]
              · -- 16 < n': the key pread succeeds, possibly short
                have hoP2 : o + 16 < P.length := by omega
                have hpread2 : pread P k.length ((o + 16 : Nat) : Int) =
                    some ((P.drop (o + 16)).take k.length) :=
                  pread_nat P k.length (o + 16) hoP2
                rw [hpread2]
                by_cases hkfit : 16 + k.length ≤ n'
                · -- header and key readable: the KVP is still recorded
                  have hdrop16 : P.drop (o + 16) =
                      (k ++ (bod ++ (u32le (lio + kvpHeaderSizeU8 +
                        k.length + bod.length) ++
                        bytesOf rest))).take (n' - 16) := by
                    have h1 : P.drop (o + 16) = (P.drop o).drop 16 := by
                      rw [List.drop_drop]
                    rw [h1, hdrop, List.drop_take]
                    congr 1
                    rw [kvpBlockBytes_shape]
                    simp only [List.append_assoc]
                    exact drop16_four_u32 _ _ _ _ _
                  have hkeyB : (P.drop (o + 16)).take k.length = k := by
                    rw [hdrop16, List.take_take]
                    have hmin : min k.length (n' - 16) = k.length := by
                      omega
                    rw [hmin, List.take_left]
                  simp only [hkeyB, lt_self_iff_false, if_false]
                  have hoff2 : ((o + 16 : Nat) : Int) +
                      ((k.length : Nat) : Int) +
                      ((bod.length : Nat) : Int) + 4 =
                      (((o + (kvpBlockBytes fid k bod lio).length : Nat)) :
                        Int) := by
                    rw [hBlen]
                    simp only [kvpHeaderSizeU8]
                    push_cast
                    ring
                  rw [hoff2]
                  have hstop : o + (kvpBlockBytes fid k bod lio).length >
                      P.length := by
                    rw [hBlen] at hfull ⊢
                    omega
                  have hpread3 : pread P maxHeaderSizeU8
                      (((o + (kvpBlockBytes fid k bod lio).length : Nat)) :
                        Int) = none :=
                    (pread_none_iff _ _ _).mpr (by exact_mod_cast
                      (by omega : P.length ≤
                        o + (kvpBlockBytes fid k bod lio).length))
                  obtain ⟨f2, rfl⟩ : ∃ f2, f = f2 + 1 := ⟨f - 1, by omega⟩
                  rw [forwardScan, hpread3]
                  have hcut : cutApplyB m o n' (OutBlock.kvpB r) =
                      jsUpdate m k (((bod.length : Nat) : Int),
                        ((o + 16 : Nat) : Int) +
                          ((k.length : Nat) : Int)) := by
                    simp only [cutApplyB]
                    rw [if_pos (by
                      constructor <;>
                        simp only [kvpHeaderSizeU8, hkey] <;> omega)]
                    simp only [scanEntry, hkb, hbody, hkey,
                      kvpHeaderSizeU8]
                    norm_cast
                  rw [hcut]
                · -- the key itself is cut: the scan records nothing
                  have hdrop16 : P.drop (o + 16) =
                      (k ++ (bod ++ (u32le (lio + kvpHeaderSizeU8 +
                        k.length + bod.length) ++
                        bytesOf rest))).take (n' - 16) := by
                    have h1 : P.drop (o + 16) = (P.drop o).drop 16 := by
                      rw [List.drop_drop]
                    rw [h1, hdrop, List.drop_take]
                    congr 1
                    rw [kvpBlockBytes_shape]
                    simp only [List.append_assoc]
                    exact drop16_four_u32 _ _ _ _ _
                  have hkl : ((P.drop (o + 16)).take k.length).length =
                      n' - 16 := by
                    rw [List.length_take, List.length_drop]
                    omega
                  have hcut : cutApplyB m o n' (OutBlock.kvpB r) = m := by
                    simp only [cutApplyB]
                    rw [if_neg (by
                      rintro ⟨-, h2⟩
                      simp only [kvpHeaderSizeU8, hkey] at h2
                      omega)]
                  simp only [hkl]
                  rw [if_pos (by omega), hcut]
    | idxB buf =>
      obtain ⟨content, hbuf⟩ := hgb
      have hbytes : (OutBlock.idxB buf).bytes = idxBlockBytes fid content :=
        hbuf
      have hBlen := idxBlockBytes_length fid content
      rw [hbytes] at hdrop hlb hnle
      have hsmall : magicHeaderSizeU8 + content.length + 4 < 4294967296 := by
        rw [hBlen] at hlb
        exact hlb
      by_cases hfull : (idxBlockBytes fid content).length ≤ n'
      · -- full index block: the scan skips it
        have h16 : 16 ≤ n' := by
          rw [hBlen] at hfull
          simp only [magicHeaderSizeU8] at hfull
          omega
        have hoP : o < P.length := by omega
        have hpread1 : pread P maxHeaderSizeU8 (o : Int) =
            some ((P.drop o).take 16) := pread_nat P 16 o hoP
        have hhdrB : (P.drop o).take 16 =
            (idxBlockBytes fid content ++ bytesOf rest).take 16 := by
          rw [hdrop, List.take_take]
          congr 1
          omega
        have hhlen : ((idxBlockBytes fid content ++
            bytesOf rest).take 16).length = 16 := by
          rw [List.length_take, List.length_append, hBlen]
          simp only [magicHeaderSizeU8]
          omega
        have hds := dsh_idx_part fid content (bytesOf rest) 16
          (by omega) (by omega) hsmall
        rw [forwardScan, hpread1, hhdrB]
        simp only [hhlen, hds, magicHeaderSizeU8]
        rw [if_neg (by norm_num)]
        have hoffI : (o : Int) + ((12 + content.length + 4 : Nat) : Int) =
            ((o + (idxBlockBytes fid content).length : Nat) : Int) := by
          rw [hBlen]
          simp only [magicHeaderSizeU8]
          push_cast
          ring
        rw [hoffI]
        have hrec := ih f (o + (idxBlockBytes fid content).length)
          (n' - (idxBlockBytes fid content).length) m
          (by
            have h1 : P.drop (o + (idxBlockBytes fid content).length) =
                (P.drop o).drop (idxBlockBytes fid content).length := by
              rw [List.drop_drop]
            rw [h1, hdrop, List.drop_take, List.drop_left])
          (by
            rw [hBlen]
            simp only [magicHeaderSizeU8]
            omega)
          (by
            rw [hBlen] at hfull ⊢
            simp only [magicHeaderSizeU8] at hfull ⊢
            omega)
          (by
            rw [List.length_append] at hnle
            omega)
          (by
            rw [hBlen]
            simp only [magicHeaderSizeU8]
            omega)
          hgoodr hlenr
        rw [hrec, scanFoldM, hbytes, if_pos hfull]
        rfl
      · -- cut index block: the scan reads nothing more and records nothing
        rw [scanFoldM, hbytes, if_neg hfull]
        have hcut : cutApplyB m o n' (OutBlock.idxB buf) = m := rfl
        by_cases h0 : n' = 0
        · have hpread0 : pread P maxHeaderSizeU8 (o : Int) = none :=
            (pread_none_iff _ _ _).mpr (by exact_mod_cast
              (by omega : P.length ≤ o))
          rw [forwardScan, hpread0, hcut]
        · have hoP : o < P.length := by omega
          have hpread1 : pread P maxHeaderSizeU8 (o : Int) =
              some ((P.drop o).take 16) := pread_nat P 16 o hoP
          rw [List.length_append] at hnle
          by_cases h12 : n' < 12
          · have hmin : min 16 n' = n' := by omega
            have hhdrB' : (P.drop o).take 16 =
                (idxBlockBytes fid content ++ bytesOf rest).take n' := by
              rw [hdrop, List.take_take, hmin]
            have hl : ((idxBlockBytes fid content ++
                bytesOf rest).take n').length = n' := by
              rw [List.length_take, List.length_append]
              omega
            rw [forwardScan, hpread1]
            simp only [hhdrB']
            rw [if_pos (by
              rw [hl]
              simp only [magicHeaderSizeU8]
              omega), hcut]
          · by_cases h16 : n' < 16
            · -- header partially readable: parsed as Index, skip past end
              have hmin : min 16 n' = n' := by omega
              have hhdrB' : (P.drop o).take 16 =
                  (idxBlockBytes fid content ++ bytesOf rest).take n' := by
                rw [hdrop, List.take_take, hmin]
              have hl : ((idxBlockBytes fid content ++
                  bytesOf rest).take n').length = n' := by
                rw [List.length_take, List.length_append]
                omega
              have hds' := dsh_idx_part fid content (bytesOf rest) n'
                (by omega) (by omega) hsmall
              rw [forwardScan, hpread1]
              simp only [hhdrB']
              rw [if_neg (by
                rw [hl]
                simp only [magicHeaderSizeU8]
                omega)]
              simp only [hds']
              have hoffI : (o : Int) +
                  ((magicHeaderSizeU8 + content.length + 4 : Nat) : Int) =
                  ((o + (magicHeaderSizeU8 + content.length + 4) : Nat) :
                    Int) := by
                push_cast
                ring
              rw [hoffI]
              have hpread3 : pread P maxHeaderSizeU8
                  ((o + (magicHeaderSizeU8 + content.length + 4) : Nat) :
                    Int) = none :=
                (pread_none_iff _ _ _).mpr (by exact_mod_cast (by
                  simp only [magicHeaderSizeU8]
                  omega : P.length ≤
                    o + (magicHeaderSizeU8 + content.length + 4)))
              obtain ⟨f2, rfl⟩ : ∃ f2, f = f2 + 1 := ⟨f - 1, by omega⟩
              rw [forwardScan, hpread3, hcut]
            · -- full header readable: parsed as Index, skip past end
              have hhdrB : (P.drop o).take 16 =
                  (idxBlockBytes fid content ++ bytesOf rest).take 16 := by
                rw [hdrop, List.take_take]
                congr 1
                omega
              have hhlen : ((idxBlockBytes fid content ++
                  bytesOf rest).take 16).length = 16 := by
                rw [List.length_take, List.length_append, hBlen]
                simp only [magicHeaderSizeU8]
                omega
              have hds := dsh_idx_part fid content (bytesOf rest) 16
                (by omega) (by omega) hsmall
              rw [forwardScan, hpread1, hhdrB]
              simp only [hhlen, hds, magicHeaderSizeU8]
              rw [if_neg (by norm_num)]
              have hoffI : (o : Int) +
                  ((12 + content.length + 4 : Nat) : Int) =
                  ((o + (12 + content.length + 4) : Nat) : Int) := by
                push_cast
                ring
              rw [hoffI]
              have hpread3 : pread P maxHeaderSizeU8
                  ((o + (12 + content.length + 4) : Nat) : Int) = none :=
                (pread_none_iff _ _ _).mpr (by exact_mod_cast (by
                  rw [hBlen] at hfull
                  simp only [magicHeaderSizeU8] at hfull
                  omega : P.length ≤ o + (12 + content.length + 4)))
              obtain ⟨f2, rfl⟩ : ∃ f2, f = f2 + 1 := ⟨f - 1, by omega⟩
              rw [forwardScan, hpread3, hcut]


theorem find_map_update {V : Type} (k' k : List Nat) (v : V) :
    ∀ (m : List (List Nat × V)),
    ((m.map fun e => if e.1 = k' then (k', v) else e).find?
        fun e => e.1 = k) =
      if k' = k
      then (m.find? fun e => e.1 = k).map (fun _ => (k, v))
      else m.find? fun e => e.1 = k := by
  intro m
  induction m with
  | nil => by_cases hkk : k' = k <;> simp [hkk]
  | cons e t ih =>
    by_cases he' : e.1 = k' <;> by_cases he : e.1 = k <;>
      by_cases hkk : k' = k <;>
      simp [List.find?_cons, he, he', hkk, ih] <;>
      simp_all

theorem jsLookup_update {V : Type} (m : List (List Nat × V))
    (k' k : List Nat) (v : V) :
    jsLookup (jsUpdate m k' v) k =
      if k' = k then some v else jsLookup m k := by
  rw [jsUpdate]
  by_cases hany : m.any (fun e => e.1 = k')
  · rw [if_pos hany, jsLookup, find_map_update]
    by_cases hkk : k' = k
    · rw [if_pos hkk, if_pos hkk]
      obtain ⟨e, hmem, he⟩ := List.any_eq_true.mp hany
      have he' : e.1 = k := by
        subst hkk
        simpa using he
      have hsome : ((m.find? fun e => e.1 = k)).isSome :=
        List.find?_isSome.mpr ⟨e, hmem, by simp [he']⟩
      obtain ⟨x, hx⟩ := Option.isSome_iff_exists.mp hsome
      rw [hx]
      rfl
    · rw [if_neg hkk, if_neg hkk, jsLookup]
  · rw [if_neg hany, jsLookup, List.find?_append]
    by_cases hkk : k' = k
    · rw [if_pos hkk]
      have hnone : (m.find? fun e => e.1 = k) = none := by
        rw [List.find?_eq_none]
        intro x hx
        have h2 : ¬ (x.1 = k') := by
          have h3 := List.any_eq_true.not.mp hany
          push_neg at h3
          have h4 := h3 x hx
          simpa using h4
        subst hkk
        simpa using h2
      rw [hnone]
      simp [hkk]
    · rw [if_neg hkk]
      rw [jsLookup]
      cases hfind : m.find? fun e => e.1 = k with
      | some x => simp [hfind]
      | none => simp [hfind, hkk, Ne.symm hkk]

theorem jsLookup_foldl {V : Type} (k : List Nat) :
    ∀ (recs : List (List Nat × V)) (m : List (List Nat × V)),
    jsLookup (recs.foldl (fun m e => jsUpdate m e.1 e.2) m) k =
      match (recs.filter fun e => e.1 = k).getLast? with
      | some e => some e.2
      | none => jsLookup m k := by
  intro recs
  induction recs with
  | nil => intro m; rfl
  | cons e t ih =>
    intro m
    rw [List.foldl_cons, ih]
    by_cases he : e.1 = k
    · rw [List.filter_cons_of_pos (by simpa using he)]
      cases hlast : (t.filter fun x => x.1 = k).getLast? with
      | some x =>
        cases htf : (t.filter fun x => x.1 = k) with
        | nil => rw [htf] at hlast; simp at hlast
        | cons y ys =>
          rw [htf] at hlast
          rw [List.getLast?_cons_cons, hlast]
      | none =>
        have htf : (t.filter fun x => x.1 = k) = [] :=
          List.getLast?_eq_none_iff.mp hlast
        rw [htf]
        rw [jsLookup_update, if_pos he]
        rfl
    · rw [List.filter_cons_of_neg (by simpa using he), jsLookup_update,
        if_neg he]


theorem scanFoldM_eq_foldl :
    ∀ (bs : List OutBlock) (o n' : Nat) (m : List (List Nat × Int × Int)),
    scanFoldM m o n' bs =
      (scanRecs o n' bs).foldl (fun m e => jsUpdate m e.1 e.2) m := by
  intro bs
  induction bs with
  | nil => intro o n' m; rfl
  | cons b rest ih =>
    intro o n' m
    cases b with
    | kvpB r =>
      rw [scanFoldM, scanRecs]
      by_cases hfull : (OutBlock.kvpB r).bytes.length ≤ n'
      · rw [if_pos hfull, if_pos hfull, List.foldl_append, ih]
        rfl
      · rw [if_neg hfull, if_neg hfull]
        by_cases hc : kvpHeaderSizeU8 < n' ∧ kvpHeaderSizeU8 + r.key ≤ n'
        · simp only [cutApplyB, if_pos hc]
          rfl
        · simp only [cutApplyB, if_neg hc]
          rfl
    | idxB buf =>
      rw [scanFoldM, scanRecs]
      by_cases hfull : (OutBlock.idxB buf).bytes.length ≤ n'
      · rw [if_pos hfull, if_pos hfull, List.nil_append, ih]
        rfl
      · rw [if_neg hfull, if_neg hfull]
        rfl

theorem scanRecs_cons (b : OutBlock) (rest : List OutBlock) (o n' : Nat) :
    scanRecs o n' (b :: rest) =
      (if b.bytes.length ≤ n'
       then (match b with
             | .kvpB r => [scanEntry o r]
             | .idxB _ => []) ++
         scanRecs (o + b.bytes.length) (n' - b.bytes.length) rest
       else (match b with
             | .kvpB r =>
               if kvpHeaderSizeU8 < n' ∧ kvpHeaderSizeU8 + r.key ≤ n'
               then [scanEntry o r] else []
             | .idxB _ => [])) := by
  cases b <;> rfl

theorem scanRecs_snoc_idx (c : List Nat) :
    ∀ (bs : List OutBlock) (o n' : Nat),
    scanRecs o n' (bs ++ [.idxB c]) = scanRecs o n' bs := by
  intro bs
  induction bs with
  | nil =>
    intro o n'
    rw [List.nil_append, scanRecs_cons]
    by_cases hfull : (OutBlock.idxB c).bytes.length ≤ n'
    · rw [if_pos hfull]
      rfl
    · rw [if_neg hfull]
      rfl
  | cons b rest ih =>
    intro o n'
    rw [List.cons_append, scanRecs_cons, scanRecs_cons]
    by_cases hfull : b.bytes.length ≤ n'
    · rw [if_pos hfull, if_pos hfull, ih]
    · rw [if_neg hfull, if_neg hfull]


theorem _maybeWriteIndex_out (wc : Option (List Nat → List Nat))
    (s1 : WState) :
    (_maybeWriteIndex wc s1).out = s1.out ++
      (if s1.lastIndex ≥ 0x40000000 ∨
          (s1.kvpSize ≥ 0x10000 ∧ s1.kvpSize ≥ s1.indexSize * 64)
       then [.idxB (serializeIndex s1.index s1.fileId wc)] else []) := by
  rw [_maybeWriteIndex]
  by_cases hc : s1.lastIndex ≥ 0x40000000 ∨
      (s1.kvpSize ≥ 0x10000 ∧ s1.kvpSize ≥ s1.indexSize * 64)
  · rw [if_pos hc, if_pos hc]
    rfl
  · rw [if_neg hc, if_neg hc, List.append_nil]

theorem _maybeWriteIndex_size (wc : Option (List Nat → List Nat))
    (s1 : WState) :
    (_maybeWriteIndex wc s1).size = s1.size +
      outLen (if s1.lastIndex ≥ 0x40000000 ∨
          (s1.kvpSize ≥ 0x10000 ∧ s1.kvpSize ≥ s1.indexSize * 64)
       then [.idxB (serializeIndex s1.index s1.fileId wc)] else []) := by
  rw [_maybeWriteIndex]
  by_cases hc : s1.lastIndex ≥ 0x40000000 ∨
      (s1.kvpSize ≥ 0x10000 ∧ s1.kvpSize ≥ s1.indexSize * 64)
  · rw [if_pos hc, if_pos hc]
    rfl
  · rw [if_neg hc, if_neg hc]
    rfl

theorem _maybeWriteIndex_fileId (wc : Option (List Nat → List Nat))
    (s1 : WState) : (_maybeWriteIndex wc s1).fileId = s1.fileId := by
  rw [_maybeWriteIndex]
  by_cases hc : s1.lastIndex ≥ 0x40000000 ∨
      (s1.kvpSize ≥ 0x10000 ∧ s1.kvpSize ≥ s1.indexSize * 64)
  · rw [if_pos hc]
    rfl
  · rw [if_neg hc]

theorem wStep_eq (wc : Option (List Nat → List Nat)) (s : WState)
    (op : WOp) :
    wStep wc s op = _maybeWriteIndex wc
      (kvpStep s (opParts wc op).1 (opParts wc op).2.1
        (opParts wc op).2.2) := by
  cases op <;> rfl

theorem wStep_out (wc : Option (List Nat → List Nat)) (s : WState)
    (op : WOp) :
    (wStep wc s op).out = s.out ++ stepBlocks wc s op := by
  rw [wStep_eq, _maybeWriteIndex_out, stepBlocks]
  rw [show (kvpStep s (opParts wc op).1 (opParts wc op).2.1
      (opParts wc op).2.2).out = s.out ++
      [.kvpB (serialize (opParts wc op).1 (opParts wc op).2.1 s.lastIndex
        s.fileId (opParts wc op).2.2)] from rfl]
  rw [List.append_assoc]
  rfl

theorem wStep_size (wc : Option (List Nat → List Nat)) (s : WState)
    (op : WOp) :
    (wStep wc s op).size = s.size + outLen (stepBlocks wc s op) := by
  rw [wStep_eq, _maybeWriteIndex_size, stepBlocks]
  rw [show (kvpStep s (opParts wc op).1 (opParts wc op).2.1
      (opParts wc op).2.2).size = s.size +
      (serialize (opParts wc op).1 (opParts wc op).2.1 s.lastIndex
        s.fileId (opParts wc op).2.2).buf.length from rfl]
  rw [show ∀ b l, outLen (b :: l) = b.bytes.length + outLen l from
    fun b l => by simp [outLen]]
  rw [Nat.add_assoc]
  rfl

theorem wStep_fileId (wc : Option (List Nat → List Nat)) (s : WState)
    (op : WOp) : (wStep wc s op).fileId = s.fileId := by
  rw [wStep_eq, _maybeWriteIndex_fileId]
  rfl

theorem wStep_size_ge (wc : Option (List Nat → List Nat)) (s : WState)
    (op : WOp) : s.size ≤ (wStep wc s op).size := by
  rw [wStep_size]
  exact Nat.le_add_right _ _

theorem foldl_out (wc : Option (List Nat → List Nat)) :
    ∀ (ops : List WOp) (s : WState),
    (ops.foldl (wStep wc) s).out = s.out ++ runBlocks wc s ops := by
  intro ops
  induction ops with
  | nil =>
    intro s
    rw [List.foldl_nil, runBlocks, List.append_nil]
  | cons op rest ih =>
    intro s
    rw [List.foldl_cons, ih, runBlocks, wStep_out, List.append_assoc]

theorem wRun_out (wc : Option (List Nat → List Nat)) (fid : Nat)
    (ops : List WOp) :
    (wRun wc fid ops).out = runBlocks wc (initW fid) ops := by
  rw [wRun, foldl_out]
  rfl

theorem wRunEnd_out (wc : Option (List Nat → List Nat)) (fid : Nat)
    (ops : List WOp) :
    (wRunEnd wc fid ops).out = runBlocks wc (initW fid) ops ++
      [.idxB (serializeIndex (wRun wc fid ops).index
        (wRun wc fid ops).fileId wc)] := by
  rw [wRunEnd, wEnd]
  rw [show (_writeIndex wc (wRun wc fid ops)).out =
    (wRun wc fid ops).out ++ [.idxB (serializeIndex (wRun wc fid ops).index
      (wRun wc fid ops).fileId wc)] from rfl]
  rw [wRun_out]

theorem serialize_keyBytes (k : List Nat) (v : AV) (lio fid : Nat)
    (c : Option (List Nat → List Nat)) :
    (serialize k v lio fid c).keyBytes = k :=
  keyBytes_of_good _ fid k (compressBody (plainBody v) c) lio rfl rfl rfl

theorem serialize_bodyBytes (k : List Nat) (v : AV) (lio fid : Nat)
    (c : Option (List Nat → List Nat)) :
    (serialize k v lio fid c).bodyBytes =
      compressBody (plainBody v) c := by
  rw [SerOut.bodyBytes]
  rw [show (serialize k v lio fid c).buf =
    kvpBlockBytes fid k (compressBody (plainBody v) c) lio from rfl]
  rw [show (serialize k v lio fid c).hdr = kvpHeaderSizeU8 from rfl]
  rw [show (serialize k v lio fid c).key = k.length from rfl]
  rw [show (serialize k v lio fid c).body =
    (compressBody (plainBody v) c).length from rfl]
  rw [show kvpHeaderSizeU8 + k.length = 16 + k.length from rfl]
  rw [← List.drop_drop]
  rw [kvpBlockBytes_shape]
  rw [drop16_four_u32, List.drop_left, List.take_left]

theorem annotate_none (wc : Option (List Nat → List Nat)) (n : Nat) :
    ∀ (ops : List WOp) (s : WState), n ≤ s.size + kvpHeaderSizeU8 →
    (annotateOps wc s ops).filterMap (fitRec n) = [] := by
  intro ops
  induction ops with
  | nil => intro s h; rfl
  | cons op rest ih =>
    intro s h
    rw [annotateOps]
    have hr : ∀ (e : OpRec), e.start = s.size → fitRec n e = none := by
      intro e he
      rw [fitRec, if_neg]
      rintro ⟨h1, -⟩
      rw [he] at h1
      simp only [kvpHeaderSizeU8] at h1 h
      omega
    rw [List.filterMap_cons, hr _ rfl]
    exact ih (wStep wc s op) (le_trans h (by
      have := wStep_size_ge wc s op
      omega))


theorem scanRecs_cons_kvp (r : SerOut) (rest : List OutBlock) (o n' : Nat) :
    scanRecs o n' (.kvpB r :: rest) =
      if r.buf.length ≤ n'
      then scanEntry o r ::
        scanRecs (o + r.buf.length) (n' - r.buf.length) rest
      else if kvpHeaderSizeU8 < n' ∧ kvpHeaderSizeU8 + r.key ≤ n'
           then [scanEntry o r] else [] := by
  rw [scanRecs_cons]
  by_cases h : (OutBlock.kvpB r).bytes.length ≤ n'
  · rw [if_pos h, if_pos (show r.buf.length ≤ n' from h)]
    rfl
  · rw [if_neg h, if_neg (show ¬ r.buf.length ≤ n' from h)]

theorem scanRecs_cons_idx (c : List Nat) (rest : List OutBlock)
    (o n' : Nat) :
    scanRecs o n' (.idxB c :: rest) =
      if c.length ≤ n'
      then scanRecs (o + c.length) (n' - c.length) rest
      else [] := by
  rw [scanRecs_cons]
  by_cases h : (OutBlock.idxB c).bytes.length ≤ n'
  · rw [if_pos h, if_pos (show c.length ≤ n' from h)]
    rfl
  · rw [if_neg h, if_neg (show ¬ c.length ≤ n' from h)]

theorem fitRec_mk (n : Nat) (k : List Nat) (v : AV) (st len : Nat)
    (r : SerOut) :
    fitRec n (OpRec.mk k v st len r) =
      if st + kvpHeaderSizeU8 < n ∧ st + kvpHeaderSizeU8 + k.length ≤ n
      then some (k, ((r.body : Int),
        ((st + kvpHeaderSizeU8 + k.length : Nat) : Int)))
      else none := rfl

theorem wStep_size_ge_kvp (wc : Option (List Nat → List Nat)) (s : WState)
    (op : WOp) :
    s.size + (serialize (opParts wc op).1 (opParts wc op).2.1 s.lastIndex s.fileId (opParts wc op).2.2).buf.length ≤ (wStep wc s op).size := by
  rw [wStep_size]
  have h : outLen (stepBlocks wc s op) =
      (serialize (opParts wc op).1 (opParts wc op).2.1 s.lastIndex s.fileId (opParts wc op).2.2).buf.length +
      outLen (if (kvpStep s (opParts wc op).1 (opParts wc op).2.1 (opParts wc op).2.2).lastIndex ≥ 1073741824 ∨ ((kvpStep s (opParts wc op).1 (opParts wc op).2.1 (opParts wc op).2.2).kvpSize ≥ 65536 ∧ (kvpStep s (opParts wc op).1 (opParts wc op).2.1 (opParts wc op).2.2).kvpSize ≥ (kvpStep s (opParts wc op).1 (opParts wc op).2.1 (opParts wc op).2.2).indexSize * 64)
        then [.idxB (serializeIndex (kvpStep s (opParts wc op).1 (opParts wc op).2.1 (opParts wc op).2.2).index (kvpStep s (opParts wc op).1 (opParts wc op).2.1 (opParts wc op).2.2).fileId wc)] else []) := by
    simp only [stepBlocks]
    simp [outLen, OutBlock.bytes]
  omega

theorem scanRecs_runBlocks (wc : Option (List Nat → List Nat)) (n : Nat) :
    ∀ (ops : List WOp) (s : WState),
    scanRecs s.size (n - s.size) (runBlocks wc s ops) =
      (annotateOps wc s ops).filterMap (fitRec n) := by
  intro ops
  induction ops with
  | nil => intro s; rfl
  | cons op rest ih =>
    intro s
    simp only [runBlocks, annotateOps, stepBlocks]
    rw [List.cons_append, scanRecs_cons_kvp, List.filterMap_cons]
    have hbl := serialize_buf_length (opParts wc op).1 (opParts wc op).2.1
      s.lastIndex s.fileId (opParts wc op).2.2
    have hrk : (serialize (opParts wc op).1 (opParts wc op).2.1 s.lastIndex s.fileId (opParts wc op).2.2).key = (opParts wc op).1.length := rfl
    by_cases hA : s.size + (serialize (opParts wc op).1 (opParts wc op).2.1 s.lastIndex s.fileId (opParts wc op).2.2).buf.length ≤ n
    · -- the whole KVP block lies inside the window
      rw [if_pos (by omega)]
      have hfit : fitRec n (OpRec.mk (opParts wc op).1 (opParts wc op).2.1 s.size (serialize (opParts wc op).1 (opParts wc op).2.1 s.lastIndex s.fileId (opParts wc op).2.2).buf.length (serialize (opParts wc op).1 (opParts wc op).2.1 s.lastIndex s.fileId (opParts wc op).2.2)) =
          some (scanEntry s.size (serialize (opParts wc op).1 (opParts wc op).2.1 s.lastIndex s.fileId (opParts wc op).2.2)) := by
        rw [fitRec_mk,
          if_pos (by simp only [kvpHeaderSizeU8]; omega)]
        rw [scanEntry, serialize_keyBytes, hrk]
      simp only [hfit]
      refine congrArg (List.cons _) ?_
      by_cases hsnap : (kvpStep s (opParts wc op).1 (opParts wc op).2.1 (opParts wc op).2.2).lastIndex ≥ 1073741824 ∨ ((kvpStep s (opParts wc op).1 (opParts wc op).2.1 (opParts wc op).2.2).kvpSize ≥ 65536 ∧ (kvpStep s (opParts wc op).1 (opParts wc op).2.1 (opParts wc op).2.2).kvpSize ≥ (kvpStep s (opParts wc op).1 (opParts wc op).2.1 (opParts wc op).2.2).indexSize * 64)
      · rw [if_pos hsnap, List.singleton_append, scanRecs_cons_idx]
        have hsz : (wStep wc s op).size =
            s.size + (serialize (opParts wc op).1 (opParts wc op).2.1 s.lastIndex s.fileId (opParts wc op).2.2).buf.length + (serializeIndex (kvpStep s (opParts wc op).1 (opParts wc op).2.1 (opParts wc op).2.2).index (kvpStep s (opParts wc op).1 (opParts wc op).2.1 (opParts wc op).2.2).fileId wc).length := by
          rw [wStep_size]
          simp only [stepBlocks]
          rw [if_pos hsnap]
          simp [outLen, OutBlock.bytes]
          omega
        by_cases hB : (serializeIndex (kvpStep s (opParts wc op).1 (opParts wc op).2.1 (opParts wc op).2.2).index (kvpStep s (opParts wc op).1 (opParts wc op).2.1 (opParts wc op).2.2).fileId wc).length ≤ n - s.size - (serialize (opParts wc op).1 (opParts wc op).2.1 s.lastIndex s.fileId (opParts wc op).2.2).buf.length
        · rw [if_pos hB]
          have h2 := ih (wStep wc s op)
          rw [hsz] at h2
          have h3 : n - (s.size + (serialize (opParts wc op).1 (opParts wc op).2.1 s.lastIndex s.fileId (opParts wc op).2.2).buf.length + (serializeIndex (kvpStep s (opParts wc op).1 (opParts wc op).2.1 (opParts wc op).2.2).index (kvpStep s (opParts wc op).1 (opParts wc op).2.1 (opParts wc op).2.2).fileId wc).length) =
              n - s.size - (serialize (opParts wc op).1 (opParts wc op).2.1 s.lastIndex s.fileId (opParts wc op).2.2).buf.length - (serializeIndex (kvpStep s (opParts wc op).1 (opParts wc op).2.1 (opParts wc op).2.2).index (kvpStep s (opParts wc op).1 (opParts wc op).2.1 (opParts wc op).2.2).fileId wc).length := by omega
          rw [h3] at h2
          exact h2
        · rw [if_neg hB]
          refine (annotate_none wc n rest (wStep wc s op) ?_).symm
          rw [hsz]
          simp only [kvpHeaderSizeU8]
          omega
      · rw [if_neg hsnap, List.nil_append]
        have hsz : (wStep wc s op).size =
            s.size + (serialize (opParts wc op).1 (opParts wc op).2.1 s.lastIndex s.fileId (opParts wc op).2.2).buf.length := by
          rw [wStep_size]
          simp only [stepBlocks]
          rw [if_neg hsnap]
          simp [outLen, OutBlock.bytes]
        have h2 := ih (wStep wc s op)
        rw [hsz] at h2
        have h3 : n - (s.size + (serialize (opParts wc op).1 (opParts wc op).2.1 s.lastIndex s.fileId (opParts wc op).2.2).buf.length) =
            n - s.size - (serialize (opParts wc op).1 (opParts wc op).2.1 s.lastIndex s.fileId (opParts wc op).2.2).buf.length := by omega
        rw [h3] at h2
        exact h2
    · -- the KVP block is cut by the window
      rw [if_neg (by omega)]
      have hnone : (annotateOps wc (wStep wc s op) rest).filterMap
          (fitRec n) = [] := by
        refine annotate_none wc n rest (wStep wc s op) ?_
        have hge := wStep_size_ge_kvp wc s op
        simp only [kvpHeaderSizeU8]
        omega
      by_cases hcs : kvpHeaderSizeU8 < n - s.size ∧
          kvpHeaderSizeU8 + (serialize (opParts wc op).1 (opParts wc op).2.1 s.lastIndex s.fileId (opParts wc op).2.2).key ≤ n - s.size
      · rw [if_pos hcs]
        have hfit : fitRec n (OpRec.mk (opParts wc op).1 (opParts wc op).2.1 s.size (serialize (opParts wc op).1 (opParts wc op).2.1 s.lastIndex s.fileId (opParts wc op).2.2).buf.length (serialize (opParts wc op).1 (opParts wc op).2.1 s.lastIndex s.fileId (opParts wc op).2.2)) =
            some (scanEntry s.size (serialize (opParts wc op).1 (opParts wc op).2.1 s.lastIndex s.fileId (opParts wc op).2.2)) := by
          rw [fitRec_mk,
            if_pos (by
              rw [hrk] at hcs
              simp only [kvpHeaderSizeU8] at hcs ⊢
              omega)]
          rw [scanEntry, serialize_keyBytes, hrk]
        simp only [hfit, hnone]
      · rw [if_neg hcs]
        have hfit : fitRec n (OpRec.mk (opParts wc op).1 (opParts wc op).2.1 s.size (serialize (opParts wc op).1 (opParts wc op).2.1 s.lastIndex s.fileId (opParts wc op).2.2).buf.length (serialize (opParts wc op).1 (opParts wc op).2.1 s.lastIndex s.fileId (opParts wc op).2.2)) = none := by
          rw [fitRec_mk, if_neg]
          rintro ⟨h1, h2⟩
          apply hcs
          rw [hrk]
          simp only [kvpHeaderSizeU8] at h1 h2 ⊢
          omega
        simp only [hfit, hnone]


theorem goodBlock_serialize (fid : Nat) (k : List Nat) (v : AV)
    (lio : Nat) (c : Option (List Nat → List Nat)) :
    GoodBlock fid (.kvpB (serialize k v lio fid c)) :=
  ⟨k, compressBody (plainBody v) c, lio, rfl, rfl, rfl, rfl, rfl⟩

theorem goodBlock_serializeIndex (fid : Nat)
    (i : List (List Nat × Nat × Nat)) (c : Option (List Nat → List Nat)) :
    GoodBlock fid (.idxB (serializeIndex i fid c)) :=
  ⟨idxContent i c, rfl⟩

theorem WGood_init (fid : Nat) : WGood fid (initW fid) :=
  ⟨rfl, by intro b hb; simp [initW] at hb⟩

theorem WGood_kvpStep {fid : Nat} {s : WState} (h : WGood fid s)
    (k : List Nat) (v : AV) (c : Option (List Nat → List Nat)) :
    WGood fid (kvpStep s k v c) := by
  obtain ⟨hfid, hall⟩ := h
  refine ⟨hfid, ?_⟩
  intro b hb
  rw [show (kvpStep s k v c).out =
    s.out ++ [.kvpB (serialize k v s.lastIndex s.fileId c)] from rfl] at hb
  rcases List.mem_append.mp hb with hmem | hmem
  · exact hall b hmem
  · have hb' : b = .kvpB (serialize k v s.lastIndex s.fileId c) := by
      simpa using hmem
    subst hb'
    rw [← hfid]
    exact goodBlock_serialize s.fileId k v s.lastIndex c

theorem WGood_writeIndex {fid : Nat} {s : WState} (h : WGood fid s)
    (wc : Option (List Nat → List Nat)) :
    WGood fid (_writeIndex wc s) := by
  obtain ⟨hfid, hall⟩ := h
  refine ⟨hfid, ?_⟩
  intro b hb
  rw [show (_writeIndex wc s).out =
    s.out ++ [.idxB (serializeIndex s.index s.fileId wc)] from rfl] at hb
  rcases List.mem_append.mp hb with hmem | hmem
  · exact hall b hmem
  · have hb' : b = .idxB (serializeIndex s.index s.fileId wc) := by
      simpa using hmem
    subst hb'
    rw [← hfid]
    exact goodBlock_serializeIndex s.fileId s.index wc

theorem WGood_maybeWriteIndex {fid : Nat} {s : WState} (h : WGood fid s)
    (wc : Option (List Nat → List Nat)) :
    WGood fid (_maybeWriteIndex wc s) := by
  rw [_maybeWriteIndex]
  split
  · exact WGood_writeIndex h wc
  · exact h

theorem WGood_wStep {fid : Nat} {s : WState} (h : WGood fid s)
    (wc : Option (List Nat → List Nat)) (op : WOp) :
    WGood fid (wStep wc s op) := by
  cases op with
  | set k v => exact WGood_maybeWriteIndex (WGood_kvpStep h k v wc) wc
  | setU k v => exact WGood_maybeWriteIndex (WGood_kvpStep h k v none) wc
  | del k => exact WGood_maybeWriteIndex (WGood_kvpStep h k _ wc) wc

theorem WGood_wRun (wc : Option (List Nat → List Nat)) (fid : Nat)
    (ops : List WOp) : WGood fid (wRun wc fid ops) := by
  rw [wRun]
  induction ops using List.reverseRecOn with
  | nil => exact WGood_init fid
  | append_singleton l op ih =>
    rw [List.foldl_append]
    exact WGood_wStep ih wc op

theorem WGood_wRunEnd (wc : Option (List Nat → List Nat)) (fid : Nat)
    (ops : List WOp) : WGood fid (wRunEnd wc fid ops) :=
  WGood_writeIndex (WGood_wRun wc fid ops) wc

theorem outLen_mem_le : ∀ (l : List OutBlock), ∀ b ∈ l,
    b.bytes.length ≤ outLen l := by
  intro l
  induction l with
  | nil => intro b hb; simp at hb
  | cons x t ih =>
    intro b hb
    have hc : outLen (x :: t) = x.bytes.length + outLen t := by
      simp [outLen]
    rcases List.mem_cons.mp hb with h | h
    · subst h
      omega
    · have := ih b h
      omega

theorem bytesOf_length (l : List OutBlock) :
    (bytesOf l).length = outLen l := by
  rw [bytesOf, outLen, List.length_flatten, List.map_map]
  rfl

theorem jsLookup_nil {V : Type} (k : List Nat) :
    jsLookup ([] : List (List Nat × V)) k = none := rfl

theorem annotate_split (wc : Option (List Nat → List Nat)) :
    ∀ (ops : List WOp) (s : WState), ∀ e ∈ annotateOps wc s ops,
    ∃ bs1 bs2, runBlocks wc s ops = bs1 ++ .kvpB e.ser :: bs2 ∧
      s.size + outLen bs1 = e.start ∧
      ∃ lio c, e.ser = serialize e.key e.value lio s.fileId c ∧
        e.len = e.ser.buf.length := by
  intro ops
  induction ops with
  | nil => intro s e he; simp [annotateOps] at he
  | cons op rest ih =>
    intro s e he
    rw [annotateOps] at he
    rcases List.mem_cons.mp he with he | he
    · subst he
      refine ⟨[], (if (kvpStep s (opParts wc op).1 (opParts wc op).2.1
          (opParts wc op).2.2).lastIndex ≥ 1073741824 ∨
          ((kvpStep s (opParts wc op).1 (opParts wc op).2.1
            (opParts wc op).2.2).kvpSize ≥ 65536 ∧
           (kvpStep s (opParts wc op).1 (opParts wc op).2.1
            (opParts wc op).2.2).kvpSize ≥
           (kvpStep s (opParts wc op).1 (opParts wc op).2.1
            (opParts wc op).2.2).indexSize * 64)
        then [.idxB (serializeIndex (kvpStep s (opParts wc op).1
          (opParts wc op).2.1 (opParts wc op).2.2).index
          (kvpStep s (opParts wc op).1 (opParts wc op).2.1
            (opParts wc op).2.2).fileId wc)] else []) ++
        runBlocks wc (wStep wc s op) rest, ?_, ?_,
        s.lastIndex, (opParts wc op).2.2, rfl, rfl⟩
      · simp only [runBlocks, stepBlocks]
        rw [List.nil_append, List.cons_append]
      · simp [outLen]
    · obtain ⟨bs1, bs2, hrb, hst, lio, c, hser, hlen⟩ :=
        ih (wStep wc s op) e he
      refine ⟨stepBlocks wc s op ++ bs1, bs2, ?_, ?_, lio, c, ?_, hlen⟩
      · rw [runBlocks, hrb, List.append_assoc]
      · rw [outLen_append]
        have hsz := wStep_size wc s op
        omega
      · rw [wStep_fileId] at hser
        exact hser


theorem filterMap_fit_last (n : Nat) (k : List Nat) :
    ∀ (l : List OpRec),
    ((l.filterMap (fitRec n)).filter (fun x => x.1 = k)).getLast? =
      ((l.filter (fun e => e.key = k ∧ e.start + kvpHeaderSizeU8 < n ∧
          e.start + kvpHeaderSizeU8 + k.length ≤ n)).getLast?).map
        (fun e => (e.key, ((e.ser.body : Int),
          ((e.start + kvpHeaderSizeU8 + e.key.length : Nat) : Int)))) := by
  intro l
  induction l using List.reverseRecOn with
  | nil => rfl
  | append_singleton t e ih =>
    rw [List.filterMap_append, List.filter_append, List.filter_append]
    by_cases hfit : e.start + kvpHeaderSizeU8 < n ∧
        e.start + kvpHeaderSizeU8 + e.key.length ≤ n
    · have hf : List.filterMap (fitRec n) [e] = [(e.key, ((e.ser.body : Int), ((e.start + kvpHeaderSizeU8 + e.key.length : Nat) : Int)))] := by
        simp [List.filterMap_cons, fitRec, hfit]
      rw [hf]
      by_cases hk : e.key = k
      · have hkl : k.length = e.key.length := by rw [hk]
        have hl : List.filter (fun x => x.1 = k) [(e.key, ((e.ser.body : Int), ((e.start + kvpHeaderSizeU8 + e.key.length : Nat) : Int)))] = [(e.key, ((e.ser.body : Int), ((e.start + kvpHeaderSizeU8 + e.key.length : Nat) : Int)))] := by
          simp [hk]
        have hq : List.filter (fun e => decide (e.key = k ∧ e.start + kvpHeaderSizeU8 < n ∧ e.start + kvpHeaderSizeU8 + k.length ≤ n)) [e] = [e] := by
          simp only [List.filter_cons, List.filter_nil]
          rw [if_pos]
          rw [decide_eq_true_eq]
          exact ⟨hk, hfit.1, by rw [hkl]; exact hfit.2⟩
        rw [hl, hq, List.getLast?_concat, List.getLast?_concat]
        rfl
      · have hl : List.filter (fun x => x.1 = k) [(e.key, ((e.ser.body : Int), ((e.start + kvpHeaderSizeU8 + e.key.length : Nat) : Int)))] = [] := by
          simp [hk]
        have hq : List.filter (fun e => decide (e.key = k ∧ e.start + kvpHeaderSizeU8 < n ∧ e.start + kvpHeaderSizeU8 + k.length ≤ n)) [e] = [] := by
          simp only [List.filter_cons, List.filter_nil]
          rw [if_neg]
          rw [decide_eq_true_eq]
          rintro ⟨h1, -⟩
          exact hk h1
        rw [hl, hq, List.append_nil, List.append_nil]
        exact ih
    · have hf : List.filterMap (fitRec n) [e] = [] := by
        simp [List.filterMap_cons, fitRec, hfit]
      have hq : List.filter (fun e => decide (e.key = k ∧ e.start + kvpHeaderSizeU8 < n ∧ e.start + kvpHeaderSizeU8 + k.length ≤ n)) [e] = [] := by
        simp only [List.filter_cons, List.filter_nil]
        rw [if_neg]
        rw [decide_eq_true_eq]
        rintro ⟨h1, h2, h3⟩
        exact hfit ⟨h2, by rw [h1]; exact h3⟩
      rw [hf, hq, List.filter_nil, List.append_nil, List.append_nil]
      exact ih


theorem readerIndex_of_abandoned (P : List Nat) (fid : Nat)
    (dec : Option (List Nat → List Nat)) (M : List (List Nat × Int × Int))
    (hcf : readerCheckFirst P fid = .ok ())
    (htw : readerTailWalk P fid dec = ⟨0, .ok [], none, none⟩)
    (hfs : forwardScan P fid false (P.length + 2) [] 0 = .ok M) :
    readerIndex P fid dec = .ok ⟨M, ⟨0, .ok [], none, none⟩⟩ := by
  rw [readerIndex]
  simp only [htw, hcf]
  rw [if_pos (by simp)]
  have hbind : ∀ {α β : Type} (a : α) (f : α → Except String β),
      ((Except.ok a : Except String α) >>= f) = f a := fun _ _ => rfl
  simp only [hbind, List.foldl_nil]
  rw [hfs]
  rfl


theorem readerCheckFirst_take (fid : Nat) (k b : List Nat) (lio n : Nat)
    (T : List Nat) (h12 : 12 ≤ n)
    (hn : n ≤ (kvpBlockBytes fid k b lio ++ T).length) :
    readerCheckFirst ((kvpBlockBytes fid k b lio ++ T).take n) fid =
      .ok () := by
  have hBlen := kvpBlockBytes_length fid k b lio
  have hPlen : ((kvpBlockBytes fid k b lio ++ T).take n).length = n := by
    rw [List.length_take]
    omega
  have hpread := pread_nat ((kvpBlockBytes fid k b lio ++ T).take n)
    magicHeaderSizeU8 0 (by omega)
  rw [Nat.cast_zero] at hpread
  have htake : (((kvpBlockBytes fid k b lio ++ T).take n).drop 0).take
      magicHeaderSizeU8 = (kvpBlockBytes fid k b lio ++ T).take 12 := by
    rw [List.drop_zero, List.take_take]
    simp only [magicHeaderSizeU8]
    congr 1
    omega
  have hw := kvpBlockBytes_words fid k b lio T
  have h0 : readU32At ((kvpBlockBytes fid k b lio ++ T).take 12) 0 =
      aokvMagic := by
    rw [readU32At_take _ _ _ (by norm_num), hw.1,
      Nat.mod_eq_of_lt (by norm_num [aokvMagic])]
  have h1 : i32 (readU32At ((kvpBlockBytes fid k b lio ++ T).take 12) 1) =
      i32 (aokvMagicKVP + fid) := by
    rw [readU32At_take _ _ _ (by norm_num), hw.2.1, i32_mod]
  have hlen12 : ((kvpBlockBytes fid k b lio ++ T).take 12).length = 12 := by
    rw [List.length_take, List.length_append]
    omega
  rw [readerCheckFirst, hpread]
  simp only [htake]
  rw [if_neg (by
    rw [hlen12]
    simp only [magicHeaderSizeU8]
    norm_num)]
  rw [if_neg (by
    push_neg
    exact ⟨h0, h1⟩)]


theorem drop16k (fid : Nat) (k b : List Nat) (lio : Nat) (T : List Nat) :
    (kvpBlockBytes fid k b lio ++ T).drop (16 + k.length) =
      b ++ (u32le (lio + kvpHeaderSizeU8 + k.length + b.length) ++ T) := by
  rw [← List.drop_drop]
  rw [kvpBlockBytes_shape]
  simp only [List.append_assoc]
  rw [drop16_four_u32, List.drop_left]

/-! ## Claim C2 (amended) -/

/-- C2 (amended theorem).  For every operation sequence S = `ops` (any
per-writer compressor), every fileId, and every prefix length `n` with
`12 ≤ n ≤ |W|` of the complete stream `W` (ops then `end()`, total size
below 2^32), whenever the reader's backward tail walk abandons (finds no
Index candidate and falls back to offset 0 with no seed entries),
`index()` succeeds, and the resulting map binds each key `k` to the most
recent `set(k, ·)` whose 16 header bytes are strictly inside the prefix
and whose key bytes all fit (`start + 16 < n` and `start + 16 + |k| ≤ n`)
— whether or not its body fits.  `getItem(k)` then returns the
deserialization of that record's exact stored body bytes when the body
lies entirely within the prefix (`start + 16 + |k| < n` and
`start + 16 + |k| + bodyLen ≤ n`), and `null` otherwise (body cut or
starting at the prefix boundary). -/
theorem C2_amendedPrefixSemantics (wc dec : Option (List Nat → List Nat)) (fid : Nat)
    (ops : List WOp) (n : Nat) (hops : ops ≠ []) (h12 : 12 ≤ n)
    (hnW : n ≤ (wBytes (wRunEnd wc fid ops)).length)
    (hWlt : (wBytes (wRunEnd wc fid ops)).length < 4294967296)
    (htw : readerTailWalk ((wBytes (wRunEnd wc fid ops)).take n) fid dec =
      ⟨0, .ok [], none, none⟩) :
    readerIndex ((wBytes (wRunEnd wc fid ops)).take n) fid dec =
      .ok ⟨scanFoldM [] 0 n (wRunEnd wc fid ops).out,
        ⟨0, .ok [], none, none⟩⟩ ∧
    (∀ k, jsLookup (scanFoldM [] 0 n (wRunEnd wc fid ops).out) k =
      (specHeaderFitRec wc fid ops n k).map
        (fun e => ((e.ser.body : Int),
          ((e.start + kvpHeaderSizeU8 + e.key.length : Nat) : Int)))) ∧
    (∀ k, getItem ((wBytes (wRunEnd wc fid ops)).take n) dec
        (scanFoldM [] 0 n (wRunEnd wc fid ops).out) k =
      match specHeaderFitRec wc fid ops n k with
      | none => .ok none
      | some e =>
        if e.start + kvpHeaderSizeU8 + e.key.length < n ∧
            e.start + kvpHeaderSizeU8 + e.key.length + e.ser.body ≤ n
        then (deserializeKVP e.ser.bodyBytes dec).map some
        else .ok none) := by
  have hWb : (wBytes (wRunEnd wc fid ops)) = bytesOf (wRunEnd wc fid ops).out := rfl
  have hinv := WInv_wRunEnd wc fid ops
  have hosz : outLen (wRunEnd wc fid ops).out = (wRunEnd wc fid ops).size :=
    hinv.1
  have hgood := (WGood_wRunEnd wc fid ops).2
  have hlenb : ∀ x ∈ (wRunEnd wc fid ops).out,
      x.bytes.length < 4294967296 := by
    intro x hx
    have h1 := outLen_mem_le _ x hx
    have h2 : ((wBytes (wRunEnd wc fid ops))).length = outLen (wRunEnd wc fid ops).out := by
      rw [hWb, bytesOf_length]
    omega
  have hPlen : ((wBytes (wRunEnd wc fid ops)).take n).length = n := by
    rw [List.length_take]
    omega
  have hfs := forwardScan_blocks fid ((wBytes (wRunEnd wc fid ops)).take n)
    (wRunEnd wc fid ops).out (((wBytes (wRunEnd wc fid ops)).take n).length + 2) 0 n []
    (by rw [List.drop_zero, ← hWb])
    (by omega) (by omega)
    (by rw [← hWb]; exact hnW)
    (by omega) hgood hlenb
  rw [Nat.cast_zero] at hfs
  -- first block: a KVP header sits at offset 0
  obtain ⟨op, ops2, rfl⟩ : ∃ op ops2, ops = op :: ops2 := by
    cases ops with
    | nil => exact absurd rfl hops
    | cons op ops2 => exact ⟨op, ops2, rfl⟩
  have hout := wRunEnd_out wc fid (op :: ops2)
  obtain ⟨tail, htail⟩ : ∃ tail, (wRunEnd wc fid (op :: ops2)).out =
      .kvpB (serialize (opParts wc op).1 (opParts wc op).2.1
        (initW fid).lastIndex (initW fid).fileId (opParts wc op).2.2) ::
        tail := by
    rw [hout]
    simp only [runBlocks, stepBlocks]
    exact ⟨_, by rw [List.cons_append, List.cons_append]⟩
  have hWshape : (wBytes (wRunEnd wc fid (op :: ops2))) =
      kvpBlockBytes fid (opParts wc op).1
        (compressBody (plainBody (opParts wc op).2.1)
          (opParts wc op).2.2) 1 ++ bytesOf tail := by
    rw [hWb, htail, bytesOf_cons]
    rfl
  have hcf := readerCheckFirst_take fid (opParts wc op).1
    (compressBody (plainBody (opParts wc op).2.1) (opParts wc op).2.2) 1 n
    (bytesOf tail) h12 (by rw [← hWshape]; exact hnW)
  rw [← hWshape] at hcf
  have hri := readerIndex_of_abandoned ((wBytes (wRunEnd wc fid (op :: ops2))).take n) fid dec
    (scanFoldM [] 0 n (wRunEnd wc fid (op :: ops2)).out) hcf htw hfs
  have hmapAll : ∀ k,
      jsLookup (scanFoldM [] 0 n (wRunEnd wc fid (op :: ops2)).out) k =
      (specHeaderFitRec wc fid (op :: ops2) n k).map
        (fun e => ((e.ser.body : Int),
          ((e.start + kvpHeaderSizeU8 + e.key.length : Nat) : Int))) := by
    intro k
    rw [scanFoldM_eq_foldl, jsLookup_foldl]
    rw [hout, scanRecs_snoc_idx]
    have hcorr := scanRecs_runBlocks wc n (op :: ops2) (initW fid)
    rw [show (initW fid).size = 0 from rfl, Nat.sub_zero] at hcorr
    rw [hcorr, filterMap_fit_last]
    rw [show specHeaderFitRec wc fid (op :: ops2) n k =
      ((annotateOps wc (initW fid) (op :: ops2)).filter
        (fun e => e.key = k ∧ e.start + kvpHeaderSizeU8 < n ∧
          e.start + kvpHeaderSizeU8 + k.length ≤ n)).getLast? from rfl]
    cases hlast : ((annotateOps wc (initW fid) (op :: ops2)).filter
        (fun e => e.key = k ∧ e.start + kvpHeaderSizeU8 < n ∧
          e.start + kvpHeaderSizeU8 + k.length ≤ n)).getLast? with
    | none => rfl
    | some e => rfl
  refine ⟨hri, hmapAll, ?_⟩
  intro k
  rw [getItem, hmapAll k]
  cases hsp : specHeaderFitRec wc fid (op :: ops2) n k with
  | none => rfl
  | some e =>
    have hspm : e ∈ (annotateOps wc (initW fid) (op :: ops2)).filter
        (fun e => e.key = k ∧ e.start + kvpHeaderSizeU8 < n ∧
          e.start + kvpHeaderSizeU8 + k.length ≤ n) := by
      rw [specHeaderFitRec] at hsp
      obtain ⟨hne, heq⟩ := List.mem_getLast?_eq_getLast
        ((Option.mem_def).mpr hsp)
      rw [heq]
      exact List.getLast_mem hne
    obtain ⟨hmemAnn, hcond⟩ := List.mem_filter.mp hspm
    obtain ⟨hkey, hc1, hc2⟩ := of_decide_eq_true hcond
    obtain ⟨bs1, bs2, hrb, hst, lio, c, hser, hlenE⟩ :=
      annotate_split wc (op :: ops2) (initW fid) e hmemAnn
    have hbuf : e.ser.buf = kvpBlockBytes fid e.key (compressBody (plainBody e.value) c) lio := by
      rw [hser]
      rfl
    have hbody : e.ser.body = (compressBody (plainBody e.value) c).length := by
      rw [hser]
      rfl
    have hbb : e.ser.bodyBytes = (compressBody (plainBody e.value) c) := by
      rw [hser]
      exact serialize_bodyBytes _ _ _ _ _
    have hst' : (bytesOf bs1).length = e.start := by
      rw [bytesOf_length]
      have h0 : (initW fid).size = 0 := rfl
      omega
    have hWdec : (wBytes (wRunEnd wc fid (op :: ops2))) = bytesOf bs1 ++
        (kvpBlockBytes fid e.key (compressBody (plainBody e.value) c) lio ++
          (bytesOf bs2 ++ (serializeIndex (wRun wc fid (op :: ops2)).index (wRun wc fid (op :: ops2)).fileId wc))) := by
      rw [hWb, hout, hrb]
      simp only [bytesOf_append, bytesOf_cons, bytesOf_nil,
        List.append_nil, List.append_assoc, OutBlock.bytes, hbuf]
    have hdropW : ((wBytes (wRunEnd wc fid (op :: ops2)))).drop (e.start + kvpHeaderSizeU8 + e.key.length) =
        (compressBody (plainBody e.value) c) ++ (u32le (lio + kvpHeaderSizeU8 + e.key.length +
          (compressBody (plainBody e.value) c).length) ++ (bytesOf bs2 ++ (serializeIndex (wRun wc fid (op :: ops2)).index (wRun wc fid (op :: ops2)).fileId wc))) := by
      rw [hWdec]
      rw [show e.start + kvpHeaderSizeU8 + e.key.length =
        (bytesOf bs1).length + (16 + e.key.length) from by
          simp only [kvpHeaderSizeU8]
          omega]
      rw [← List.drop_drop, List.drop_left, drop16k]
    show (match pread ((wBytes (wRunEnd wc fid (op :: ops2))).take n) e.ser.body
        (((e.start + kvpHeaderSizeU8 + e.key.length : Nat)) : Int) with
      | none => Except.ok none
      | some body =>
        if ((body.length : Nat) : Int) < ((e.ser.body : Nat) : Int)
        then Except.ok none
        else (deserializeKVP body dec).map some) =
      (if e.start + kvpHeaderSizeU8 + e.key.length < n ∧
          e.start + kvpHeaderSizeU8 + e.key.length + e.ser.body ≤ n
       then (deserializeKVP e.ser.bodyBytes dec).map some
       else Except.ok none)
    by_cases hful : e.start + kvpHeaderSizeU8 + e.key.length < n ∧
        e.start + kvpHeaderSizeU8 + e.key.length + e.ser.body ≤ n
    · rw [if_pos hful]
      have hpr := pread_nat ((wBytes (wRunEnd wc fid (op :: ops2))).take n) e.ser.body
        (e.start + kvpHeaderSizeU8 + e.key.length) (by omega)
      rw [hpr]
      have hbytes : (((wBytes (wRunEnd wc fid (op :: ops2))).take n).drop
          (e.start + kvpHeaderSizeU8 + e.key.length)).take e.ser.body =
          (compressBody (plainBody e.value) c) := by
        rw [List.drop_take, List.take_take]
        rw [show min e.ser.body
          (n - (e.start + kvpHeaderSizeU8 + e.key.length)) =
          e.ser.body from by omega]
        rw [hdropW, hbody, List.take_left]
      simp only [hbytes]
      rw [if_neg (by
        rw [hbody]
        exact lt_irrefl _)]
      rw [hbb]
    · rw [if_neg hful]
      by_cases hoff : e.start + kvpHeaderSizeU8 + e.key.length < n
      · have hshort : n <
            e.start + kvpHeaderSizeU8 + e.key.length + e.ser.body := by
          rcases Nat.lt_or_ge n
            (e.start + kvpHeaderSizeU8 + e.key.length + e.ser.body) with
            h | h
          · exact h
          · exact absurd ⟨hoff, h⟩ hful
        have hpr := pread_nat ((wBytes (wRunEnd wc fid (op :: ops2))).take n) e.ser.body
          (e.start + kvpHeaderSizeU8 + e.key.length) (by omega)
        rw [hpr]
        have hlen' : ((((wBytes (wRunEnd wc fid (op :: ops2))).take n).drop
            (e.start + kvpHeaderSizeU8 + e.key.length)).take
              e.ser.body).length =
            n - (e.start + kvpHeaderSizeU8 + e.key.length) := by
          rw [List.length_take, List.length_drop, hPlen]
          omega
        simp only [hlen']
        rw [if_pos (by
          exact_mod_cast (by omega :
            n - (e.start + kvpHeaderSizeU8 + e.key.length) < e.ser.body))]
      · have hprn : pread ((wBytes (wRunEnd wc fid (op :: ops2))).take n) e.ser.body
            (((e.start + kvpHeaderSizeU8 + e.key.length : Nat)) : Int) =
            none := by
          rw [pread_none_iff, hPlen]
          exact_mod_cast (by omega :
            n ≤ e.start + kvpHeaderSizeU8 + e.key.length)
        rw [hprn]

/-- C2 amended-theorem witness: the concrete 38-byte prefix of the
complete file for S = [set("a",1), set("a",2)] (fileId 0, no
compression) satisfies every hypothesis, and `index()` over it succeeds
with the scanned map. -/
theorem C2_amendedPrefixSemantics_witness :
    (12 ≤ 38 ∧ 38 ≤ (wBytes (wRunEnd none 0 opsB)).length) ∧
    readerIndex ((wBytes (wRunEnd none 0 opsB)).take 38) 0 none =
      .ok ⟨scanFoldM [] 0 38 (wRunEnd none 0 opsB).out,
        ⟨0, .ok [], none, none⟩⟩ :=
  ⟨⟨by norm_num, by decide⟩,
   (C2_amendedPrefixSemantics none none 0 opsB 38 (by simp [opsB])
     (by norm_num) (by decide) (by decide) (by rfl)).1⟩


end AOKV
